import Mathlib

/-!
Verification of the DU-Mesh-Transformer core against its specification.

The development shallowly embeds the relevant program components:

* `Sep` — the connected-component partitioner and island classifier of
  `ElementSeparationTransform` (src/unnamed/part_004, lines 102-193).
* `Uv` — the triplanar UV projector `CreateUvMapsTransform`
  (src/unnamed/part_003).
* `Img` — the RGBA pixel buffer `RgbaBuffer` (src/src/lib/RgbaBuffer.ts)
  and the MRAO channel-reorder callback of
  `TexturesTransform.loadTexture` (src/src/lib/commands/TexturesTransform.ts).
* `Tex` — the texture loading/caching logic of `TexturesTransform`
  together with the `rememberMany`/`setRememberMany` caches of
  `DuMeshTransformer`.
* `Pipe` — the sequential transform queue `DuMeshTransformer.processQueue`
  and `saveToFile`.
* `Reb` — the geometry rebuild step of `ElementSeparationTransform`
  (src/unnamed/part_004, lines 195-346).
* `Doc` — the precondition checks of `ElementSeparationTransform`
  (src/unnamed/part_004, lines 18-36).

JavaScript `Set`s are modelled as duplicate-free lists in insertion order;
JavaScript objects keyed by integers or strings are modelled as lists or
association lists (object keys are unique, and only membership and counts
of these collections are ever consumed).  Machine `Uint16Array` stores are
modelled with an explicit `% 65536`.  Floating-point vertex data is only
ever copied or compared through the rounded position key, so positions are
carried abstractly (rationals / opaque key codes).
-/

namespace Sep

/--
A mesh primitive as consumed by the island search of
`ElementSeparationTransform` (part_004, lines 86-133).

`tris` is the primitive's index buffer grouped in consecutive triples
(triangle `i` reads scalars `3*i`, `3*i+1`, `3*i+2`).  `posKey v` is the
position hash `getHashFromPosition(positions.getElement(v))` of vertex
`v`: the three coordinates printed to 3 decimals and joined — only
equality of these strings is ever used, so the key is carried as an
abstract code.
-/
structure Prim where
  tris : List (Nat × Nat × Nat)
  posKey : Nat → Nat

/-- The triangle count `triangleCount` (part_004, line 108). -/
def Prim.n (P : Prim) : Nat := P.tris.length

/-- The vertex set `verticesPerTriangle[t]` (part_004, lines 110-120): the (deduplicated
set of) vertex ids of triangle `t`, in insertion order. -/
def Prim.verts (P : Prim) (t : Nat) : List Nat :=
  match P.tris.get? t with
  | some (a, b, c) => [a, b, c]
  | none => []

/-- The vertex ids appearing in the index buffer:
`Object.keys(trianglesPerVertex)` (part_004, line 123).  Object keys are
unique; only membership and counts of this collection are consumed, so
the iteration order chosen here is immaterial. -/
def Prim.vertexIds (P : Prim) : List Nat :=
  ((List.range P.n).flatMap fun t => P.verts t).dedup

/-- The position bucket `verticesPerPosition[k]` (part_004, lines 122-128): all appearing
vertex ids whose position hash is `k`. -/
def Prim.bucket (P : Prim) (k : Nat) : List Nat :=
  P.vertexIds.filter fun v => P.posKey v == k

/-- The incidence set `trianglesPerVertex[v]` (part_004, lines 114-115): the triangles
incident to vertex id `v`. -/
def Prim.trisOfVert (P : Prim) (v : Nat) : List Nat :=
  (List.range P.n).filter fun t => (P.verts t).contains v

/-- The triangles queued from triangle `t` in the traversal (part_004,
lines 157-175): for every vertex of `t`, for every vertex sharing its
position hash, all triangles incident to that vertex. -/
def Prim.neighbors (P : Prim) (t : Nat) : List Nat :=
  ((P.verts t).dedup).flatMap fun v =>
    (P.bucket (P.posKey v)).flatMap fun w => P.trisOfVert w

/--
The number of times triangle `t` increments the island's
`voxelConnections` counter (part_004, lines 158-181): for each vertex of
the triangle, `triangleVoxelConnections` is (re)initialised to `0`, then
incremented once per position-duplicate whose hash lies in
`voxelVertices`; the island counter advances when that per-vertex tally
reaches 2.
-/
def Prim.triVoxelHits (P : Prim) (voxel : List Nat) (t : Nat) : Nat :=
  ((P.verts t).dedup).countP fun v =>
    decide (2 ≤ (P.bucket (P.posKey v)).countP fun w => voxel.contains (P.posKey w))

/-- JavaScript `Set.add`: append unless already present. -/
def setAdd (s : List Nat) (x : Nat) : List Nat :=
  if x ∈ s then s else s ++ [x]

/-- Adding several elements to a JavaScript `Set` in order. -/
def setAddAll (s : List Nat) (xs : List Nat) : List Nat :=
  xs.foldl setAdd s

/--
The inner island traversal (part_004, lines 146-182).  State:
`islandTriangleIds` (the island built so far, in insertion order),
`nextTriangles` (the frontier set) and the `voxelConnections` counter.
Each step pops the first frontier element, adds it to the island, adds
its `voxelConnections` contribution, and queues its neighbors that are
not yet in the island.  The source `while` loop always terminates (each
step moves a fresh triangle into the island); the fuel argument makes
that termination explicit and is always called with enough fuel.
-/
def Prim.bfs (P : Prim) (voxel : List Nat) :
    Nat → List Nat → List Nat → Nat → List Nat × Nat
  | 0, island, _, cnt => (island, cnt)
  | _ + 1, island, [], cnt => (island, cnt)
  | fuel + 1, island, cur :: rest, cnt =>
    let island' := setAdd island cur
    let cnt' := cnt + P.triVoxelHits voxel cur
    let frontier' := setAddAll rest ((P.neighbors cur).filter fun t => !(island'.contains t))
    P.bfs voxel fuel island' frontier' cnt'

/--
The outer island loop (part_004, lines 130-193): while triangles remain
pending, seed a traversal from the first pending triangle; every
triangle visited by the traversal is removed from the pending set.
Returns every island together with its `voxelConnections` count, in
discovery order.
-/
def Prim.sepLoop (P : Prim) (voxel : List Nat) : Nat → List Nat → List (List Nat × Nat)
  | 0, _ => []
  | _ + 1, [] => []
  | fuel + 1, seed :: pending =>
    let r := P.bfs voxel (P.n + 1) [] [seed] 0
    r :: P.sepLoop voxel fuel (pending.filter fun t => !(r.1.contains t))

/-- Island discovery run on an explicit processing order for the pending
set (the source initialises it with triangle ids `0..n-1`; claim C4 also
considers reversed/permuted orders). -/
def Prim.islandResults (P : Prim) (voxel : List Nat) (order : List Nat) :
    List (List Nat × Nat) :=
  P.sepLoop voxel (order.length + 1) order

/-- The computed islands with their classification (part_004, lines
184-192): an island is structural (`true`) when `voxelConnections >= 2`,
isolated (`false`) otherwise. -/
def Prim.islands (P : Prim) (voxel : List Nat) (order : List Nat) :
    List (List Nat × Bool) :=
  (P.islandResults voxel order).map fun r => (r.1, decide (2 ≤ r.2))

/-- The islands as computed by the source, whose pending set is
`new Set(Object.keys(verticesPerTriangle))`, i.e. triangle ids in
ascending order (part_004, line 133). -/
def Prim.islandsDefault (P : Prim) (voxel : List Nat) : List (List Nat × Bool) :=
  P.islands voxel (List.range P.n)

/-- Two triangles share a position key: some vertex of `a` and some
vertex of `b` have equal position hashes. -/
def Prim.SharesKey (P : Prim) (a b : Nat) : Prop :=
  ∃ v ∈ P.verts a, ∃ w ∈ P.verts b, P.posKey v = P.posKey w

/-- The adjacency relation induced on valid triangles by shared position
keys. -/
def Prim.Adj (P : Prim) (a b : Nat) : Prop :=
  a < P.n ∧ b < P.n ∧ P.SharesKey a b

/-- A chain of triangles in which consecutive triangles share at least
one position key. -/
def Prim.Chain (P : Prim) : Nat → Nat → Prop :=
  Relation.ReflTransGen P.Adj

/--
Classification of an island following the specification's words (claims
C2/C1 context, spec §4.4 step 4): count the triangles of the island
having at least 2 of their 3 vertices with some position-duplicate in
the voxel reference set; the island is structural when at least 2
triangles qualify.
-/
def Prim.specTriQualifies (P : Prim) (voxel : List Nat) (t : Nat) : Bool :=
  decide (2 ≤ ((P.verts t).dedup).countP fun v =>
    (P.bucket (P.posKey v)).any fun w => voxel.contains (P.posKey w))

/-- Spec-side structural classification of an island (see
`Prim.specTriQualifies`). -/
def Prim.specStructural (P : Prim) (voxel : List Nat) (island : List Nat) : Bool :=
  decide (2 ≤ island.countP (P.specTriQualifies voxel))

end Sep

namespace Sep

instance (P : Prim) (a b : Nat) : Decidable (P.SharesKey a b) :=
  decidable_of_iff (∃ v ∈ P.verts a, ∃ w ∈ P.verts b, P.posKey v = P.posKey w) Iff.rfl

instance (P : Prim) (a b : Nat) : Decidable (P.Adj a b) :=
  decidable_of_iff (a < P.n ∧ b < P.n ∧ P.SharesKey a b) Iff.rfl

theorem lt_n_of_mem_verts {P : Prim} {t v : Nat} (h : v ∈ P.verts t) : t < P.n := by
  unfold Prim.verts at h
  rcases hg : P.tris.get? t with _ | ⟨⟨a, b, c⟩⟩
  · rw [hg] at h; simp at h
  · have := List.get?_eq_some.mp hg
    exact this.1

theorem exists_mem_verts {P : Prim} {t : Nat} (h : t < P.n) : ∃ v, v ∈ P.verts t := by
  unfold Prim.verts
  rcases hg : P.tris.get? t with _ | ⟨⟨a, b, c⟩⟩
  · exact absurd (List.get?_eq_none.mp hg) (by simpa [Prim.n] using h)
  · exact ⟨a, by simp⟩

theorem mem_vertexIds {P : Prim} {v : Nat} :
    v ∈ P.vertexIds ↔ ∃ t, t < P.n ∧ v ∈ P.verts t := by
  unfold Prim.vertexIds
  simp [List.mem_flatMap, List.mem_range]

theorem mem_bucket {P : Prim} {w k : Nat} :
    w ∈ P.bucket k ↔ w ∈ P.vertexIds ∧ P.posKey w = k := by
  unfold Prim.bucket
  simp [List.mem_filter]

theorem mem_trisOfVert {P : Prim} {t v : Nat} :
    t ∈ P.trisOfVert v ↔ t < P.n ∧ v ∈ P.verts t := by
  unfold Prim.trisOfVert
  simp [List.mem_filter, List.mem_range]

theorem mem_neighbors {P : Prim} {a b : Nat} :
    b ∈ P.neighbors a ↔ P.Adj a b := by
  unfold Prim.neighbors
  simp only [List.mem_flatMap, List.mem_dedup]
  constructor
  · rintro ⟨v, hv, w, hw, hb⟩
    rcases mem_bucket.mp hw with ⟨-, hkey⟩
    rcases mem_trisOfVert.mp hb with ⟨hbn, hwb⟩
    exact ⟨lt_n_of_mem_verts hv, hbn, v, hv, w, hwb, hkey.symm⟩
  · rintro ⟨ha, hb, v, hv, w, hwb, hkey⟩
    refine ⟨v, hv, w, ?_, mem_trisOfVert.mpr ⟨hb, hwb⟩⟩
    exact mem_bucket.mpr ⟨mem_vertexIds.mpr ⟨b, hb, hwb⟩, hkey.symm⟩

theorem adj_symm {P : Prim} {a b : Nat} (h : P.Adj a b) : P.Adj b a := by
  rcases h with ⟨ha, hb, v, hv, w, hw, hk⟩
  exact ⟨hb, ha, w, hw, v, hv, hk.symm⟩

theorem adj_refl {P : Prim} {a : Nat} (h : a < P.n) : P.Adj a a := by
  rcases exists_mem_verts h with ⟨v, hv⟩
  exact ⟨h, h, v, hv, v, hv, rfl⟩

theorem chain_symm {P : Prim} {a b : Nat} (h : P.Chain a b) : P.Chain b a :=
  Relation.ReflTransGen.symmetric (fun _ _ hadj => adj_symm hadj) h

theorem chain_lt {P : Prim} {a b : Nat} (h : P.Chain a b) (ha : a < P.n) : b < P.n := by
  induction h with
  | refl => exact ha
  | tail _ hadj _ => exact hadj.2.1

theorem mem_setAdd {s : List Nat} {x y : Nat} :
    y ∈ setAdd s x ↔ y ∈ s ∨ y = x := by
  unfold setAdd
  by_cases h : x ∈ s
  · simp only [if_pos h]
    exact ⟨Or.inl, fun hy => hy.elim id (fun hh => hh ▸ h)⟩
  · simp [if_neg h]

theorem nodup_setAdd {s : List Nat} {x : Nat} (h : s.Nodup) : (setAdd s x).Nodup := by
  unfold setAdd
  by_cases hx : x ∈ s
  · simpa [if_pos hx]
  · simp only [if_neg hx]
    refine List.Nodup.append h (List.nodup_singleton x) ?_
    intro v hv hvx
    rw [List.mem_singleton] at hvx
    exact hx (hvx ▸ hv)

theorem length_setAdd_of_not_mem {s : List Nat} {x : Nat} (h : x ∉ s) :
    (setAdd s x).length = s.length + 1 := by
  simp [setAdd, if_neg h]

theorem setAdd_eq_append_of_not_mem {s : List Nat} {x : Nat} (h : x ∉ s) :
    setAdd s x = s ++ [x] := by
  simp [setAdd, if_neg h]

theorem mem_setAddAll {xs : List Nat} :
    ∀ {s : List Nat} {y : Nat}, y ∈ setAddAll s xs ↔ y ∈ s ∨ y ∈ xs := by
  induction xs with
  | nil => intro s y; simp [setAddAll]
  | cons x xs ih =>
    intro s y
    show y ∈ setAddAll (setAdd s x) xs ↔ _
    rw [ih, mem_setAdd]
    constructor
    · rintro ((h | h) | h)
      · exact Or.inl h
      · exact Or.inr (h ▸ List.mem_cons_self x xs)
      · exact Or.inr (List.mem_cons_of_mem _ h)
    · rintro (h | h)
      · exact Or.inl (Or.inl h)
      · rcases List.mem_cons.mp h with h | h
        · exact Or.inl (Or.inr h)
        · exact Or.inr h

theorem nodup_setAddAll {xs s : List Nat} (h : s.Nodup) : (setAddAll s xs).Nodup := by
  induction xs generalizing s with
  | nil => exact h
  | cons x xs ih => exact ih (nodup_setAdd h)

end Sep

namespace Sep

/-- Loop invariant of the island traversal: both sets hold valid,
duplicate-free triangle ids, the frontier is disjoint from the island,
and every neighbor of an island member is already in the island or
queued in the frontier. -/
structure BfsInv (P : Prim) (island frontier : List Nat) : Prop where
  islandLt : ∀ t ∈ island, t < P.n
  frontLt : ∀ t ∈ frontier, t < P.n
  islandNd : island.Nodup
  frontNd : frontier.Nodup
  disj : ∀ t ∈ frontier, t ∉ island
  closed : ∀ a ∈ island, ∀ b, P.Adj a b → b ∈ island ∨ b ∈ frontier

theorem bfsInv_step {P : Prim} {island rest : List Nat} {cur : Nat}
    (inv : BfsInv P island (cur :: rest)) :
    BfsInv P (setAdd island cur)
      (setAddAll rest ((P.neighbors cur).filter fun t => !((setAdd island cur).contains t))) := by
  have hcurn : cur < P.n := inv.frontLt cur (List.mem_cons_self cur rest)
  have hcurrest : cur ∉ rest := (List.nodup_cons.mp inv.frontNd).1
  have hrestnd : rest.Nodup := (List.nodup_cons.mp inv.frontNd).2
  have hfiltermem : ∀ {t : Nat},
      t ∈ (P.neighbors cur).filter (fun t => !((setAdd island cur).contains t)) →
        P.Adj cur t ∧ t ∉ setAdd island cur := by
    intro t ht
    rcases List.mem_filter.mp ht with ⟨hmem, hpred⟩
    refine ⟨mem_neighbors.mp hmem, ?_⟩
    simpa using hpred
  refine ⟨?_, ?_, nodup_setAdd inv.islandNd, nodup_setAddAll hrestnd, ?_, ?_⟩
  · intro t ht
    rcases mem_setAdd.mp ht with h | h
    · exact inv.islandLt t h
    · exact h ▸ hcurn
  · intro t ht
    rcases mem_setAddAll.mp ht with h | h
    · exact inv.frontLt t (List.mem_cons_of_mem _ h)
    · exact (hfiltermem h).1.2.1
  · intro t ht
    rcases mem_setAddAll.mp ht with h | h
    · intro hmem
      rcases mem_setAdd.mp hmem with h2 | h2
      · exact inv.disj t (List.mem_cons_of_mem _ h) h2
      · exact hcurrest (h2 ▸ h)
    · exact (hfiltermem h).2
  · intro a ha b hadj
    rcases mem_setAdd.mp ha with h | h
    · rcases inv.closed a h b hadj with h2 | h2
      · exact Or.inl (mem_setAdd.mpr (Or.inl h2))
      · rcases List.mem_cons.mp h2 with h3 | h3
        · exact Or.inl (mem_setAdd.mpr (Or.inr h3))
        · exact Or.inr (mem_setAddAll.mpr (Or.inl h3))
    · subst h
      by_cases hb : b ∈ setAdd island a
      · exact Or.inl hb
      · refine Or.inr (mem_setAddAll.mpr (Or.inr ?_))
        exact List.mem_filter.mpr ⟨mem_neighbors.mpr hadj, by simpa using hb⟩

theorem length_le_n_of_nodup {P : Prim} {l : List Nat}
    (hnd : l.Nodup) (hlt : ∀ t ∈ l, t < P.n) : l.length ≤ P.n := by
  have hsub : l.toFinset ⊆ Finset.range P.n := by
    intro t ht
    exact Finset.mem_range.mpr (hlt t (List.mem_toFinset.mp ht))
  have := Finset.card_le_card hsub
  rwa [List.toFinset_card_of_nodup hnd, Finset.card_range] at this

theorem bfs_spec (P : Prim) (voxel : List Nat) :
    ∀ fuel island frontier cnt, BfsInv P island frontier →
      P.n < island.length + fuel →
      cnt = (island.map (P.triVoxelHits voxel)).sum →
      (∀ t ∈ island, t ∈ (P.bfs voxel fuel island frontier cnt).1) ∧
      (∀ t ∈ frontier, t ∈ (P.bfs voxel fuel island frontier cnt).1) ∧
      (∀ t ∈ (P.bfs voxel fuel island frontier cnt).1,
        t ∈ island ∨ ∃ s ∈ frontier, P.Chain s t) ∧
      (∀ a ∈ (P.bfs voxel fuel island frontier cnt).1, ∀ b, P.Adj a b →
        b ∈ (P.bfs voxel fuel island frontier cnt).1) ∧
      (P.bfs voxel fuel island frontier cnt).1.Nodup ∧
      (∀ t ∈ (P.bfs voxel fuel island frontier cnt).1, t < P.n) ∧
      (P.bfs voxel fuel island frontier cnt).2
        = ((P.bfs voxel fuel island frontier cnt).1.map (P.triVoxelHits voxel)).sum := by
  intro fuel
  induction fuel with
  | zero =>
    intro island frontier cnt inv hfuel _
    exact absurd (length_le_n_of_nodup inv.islandNd inv.islandLt) (by omega)
  | succ fuel ih =>
    intro island frontier cnt inv hfuel hcnt
    match frontier with
    | [] =>
      refine ⟨fun t ht => ht, fun t ht => by simp at ht, fun t ht => Or.inl ht, ?_,
        inv.islandNd, inv.islandLt, hcnt⟩
      intro a ha b hadj
      rcases inv.closed a ha b hadj with h | h
      · exact h
      · simp at h
    | cur :: rest =>
      have hcurisl : cur ∉ island := inv.disj cur (List.mem_cons_self cur rest)
      have hlen : (setAdd island cur).length = island.length + 1 :=
        length_setAdd_of_not_mem hcurisl
      have hcnt' : cnt + P.triVoxelHits voxel cur
          = ((setAdd island cur).map (P.triVoxelHits voxel)).sum := by
        rw [setAdd_eq_append_of_not_mem hcurisl, List.map_append, List.sum_append, hcnt]
        simp
      have step := ih (setAdd island cur)
        (setAddAll rest ((P.neighbors cur).filter fun t => !((setAdd island cur).contains t)))
        (cnt + P.triVoxelHits voxel cur) (bfsInv_step inv) (by omega) hcnt'
      show (∀ t ∈ island, t ∈ (P.bfs voxel fuel _ _ _).1) ∧ _
      obtain ⟨s1, s2, s3, s4, s5, s6, s7⟩ := step
      refine ⟨?_, ?_, ?_, s4, s5, s6, s7⟩
      · intro t ht
        exact s1 t (mem_setAdd.mpr (Or.inl ht))
      · intro t ht
        rcases List.mem_cons.mp ht with h | h
        · exact s1 t (mem_setAdd.mpr (Or.inr h))
        · exact s2 t (mem_setAddAll.mpr (Or.inl h))
      · intro t ht
        rcases s3 t ht with h | ⟨s, hs, hchain⟩
        · rcases mem_setAdd.mp h with h2 | h2
          · exact Or.inl h2
          · exact Or.inr ⟨cur, List.mem_cons_self cur rest, h2 ▸ Relation.ReflTransGen.refl⟩
        · rcases mem_setAddAll.mp hs with h2 | h2
          · exact Or.inr ⟨s, List.mem_cons_of_mem _ h2, hchain⟩
          · rcases List.mem_filter.mp h2 with ⟨hmem, -⟩
            exact Or.inr ⟨cur, List.mem_cons_self cur rest,
              Relation.ReflTransGen.trans
                (Relation.ReflTransGen.single (mem_neighbors.mp hmem)) hchain⟩

end Sep

namespace Sep

theorem bfs_island_spec (P : Prim) (voxel : List Nat) {seed : Nat} (hs : seed < P.n) :
    (∀ t, t ∈ (P.bfs voxel (P.n + 1) [] [seed] 0).1 ↔ P.Chain seed t) ∧
    (P.bfs voxel (P.n + 1) [] [seed] 0).1.Nodup ∧
    (P.bfs voxel (P.n + 1) [] [seed] 0).2
      = ((P.bfs voxel (P.n + 1) [] [seed] 0).1.map (P.triVoxelHits voxel)).sum := by
  have inv : BfsInv P [] [seed] := by
    refine ⟨by simp, ?_, by simp, by simp, by simp, by simp⟩
    intro t ht
    rw [List.mem_singleton] at ht
    exact ht ▸ hs
  obtain ⟨s1, s2, s3, s4, s5, s6, s7⟩ :=
    bfs_spec P voxel (P.n + 1) [] [seed] 0 inv (by omega) (by simp)
  refine ⟨?_, s5, s7⟩
  intro t
  constructor
  · intro ht
    rcases s3 t ht with h | ⟨s, hsmem, hchain⟩
    · simp at h
    · rw [List.mem_singleton] at hsmem
      exact hsmem ▸ hchain
  · intro hchain
    induction hchain with
    | refl => exact s2 seed (List.mem_singleton.mpr rfl)
    | tail _ hadj ihc => exact s4 _ ihc _ hadj

theorem sepLoop_spec (P : Prim) (voxel : List Nat) :
    ∀ fuel pending, pending.length < fuel → (∀ t ∈ pending, t < P.n) →
      (∀ r ∈ P.sepLoop voxel fuel pending, ∃ s ∈ pending,
        (∀ t, t ∈ r.1 ↔ P.Chain s t) ∧ r.1.Nodup ∧
        r.2 = (r.1.map (P.triVoxelHits voxel)).sum) ∧
      (∀ t ∈ pending, ∃ r ∈ P.sepLoop voxel fuel pending, t ∈ r.1) ∧
      List.Pairwise (fun r1 r2 => ∀ t, t ∈ r1.1 → t ∉ r2.1)
        (P.sepLoop voxel fuel pending) := by
  intro fuel
  induction fuel with
  | zero =>
    intro pending hlen _
    omega
  | succ fuel ih =>
    intro pending hlen hmem
    match pending with
    | [] =>
      refine ⟨?_, ?_, ?_⟩ <;> simp [Prim.sepLoop]
    | seed :: pending =>
      have hseedn : seed < P.n := hmem seed (List.mem_cons_self seed pending)
      obtain ⟨hiff, hnd, hcnt⟩ := bfs_island_spec P voxel hseedn
      have hseedmem : seed ∈ (P.bfs voxel (P.n + 1) [] [seed] 0).1 :=
        (hiff seed).mpr Relation.ReflTransGen.refl
      have hfilterlen :
          (pending.filter fun t => !((P.bfs voxel (P.n + 1) [] [seed] 0).1.contains t)).length
            < fuel := by
        have := List.length_filter_le
          (fun t => !((P.bfs voxel (P.n + 1) [] [seed] 0).1.contains t)) pending
        simp only [List.length_cons] at hlen
        omega
      have hfiltermem :
          ∀ t ∈ pending.filter fun t => !((P.bfs voxel (P.n + 1) [] [seed] 0).1.contains t),
            t < P.n := by
        intro t ht
        exact hmem t (List.mem_cons_of_mem _ (List.mem_filter.mp ht).1)
      obtain ⟨ihA, ihB, ihC⟩ := ih _ hfilterlen hfiltermem
      have hloop : P.sepLoop voxel (fuel + 1) (seed :: pending)
          = (P.bfs voxel (P.n + 1) [] [seed] 0)
            :: P.sepLoop voxel fuel
              (pending.filter fun t => !((P.bfs voxel (P.n + 1) [] [seed] 0).1.contains t)) := rfl
      rw [hloop]
      refine ⟨?_, ?_, ?_⟩
      · intro r hr
        rcases List.mem_cons.mp hr with h | h
        · exact ⟨seed, List.mem_cons_self seed pending, h ▸ ⟨hiff, hnd, hcnt⟩⟩
        · obtain ⟨s, hsmem, hprops⟩ := ihA r h
          exact ⟨s, List.mem_cons_of_mem _ (List.mem_filter.mp hsmem).1, hprops⟩
      · intro t ht
        rcases List.mem_cons.mp ht with h | h
        · exact ⟨_, List.mem_cons_self _ _, h ▸ hseedmem⟩
        · by_cases hin : t ∈ (P.bfs voxel (P.n + 1) [] [seed] 0).1
          · exact ⟨_, List.mem_cons_self _ _, hin⟩
          · have htf : t ∈ pending.filter
                fun t => !((P.bfs voxel (P.n + 1) [] [seed] 0).1.contains t) :=
              List.mem_filter.mpr ⟨h, by simpa using hin⟩
            obtain ⟨r, hr, htr⟩ := ihB t htf
            exact ⟨r, List.mem_cons_of_mem _ hr, htr⟩
      · refine List.pairwise_cons.mpr ⟨?_, ihC⟩
        intro r hr t ht0 htr
        obtain ⟨s, hsmem, hsiff, -, -⟩ := ihA r hr
        have hsnot : s ∉ (P.bfs voxel (P.n + 1) [] [seed] 0).1 := by
          have := (List.mem_filter.mp hsmem).2
          simpa using this
        have hchain_seed_t : P.Chain seed t := (hiff t).mp ht0
        have hchain_s_t : P.Chain s t := (hsiff t).mp htr
        exact hsnot ((hiff s).mpr
          (Relation.ReflTransGen.trans hchain_seed_t (chain_symm hchain_s_t)))

end Sep

namespace Sep

theorem mem_islandsDefault_iff {P : Prim} {voxel : List Nat} {r : List Nat × Bool} :
    r ∈ P.islandsDefault voxel ↔
      ∃ q ∈ P.islandResults voxel (List.range P.n), r = (q.1, decide (2 ≤ q.2)) := by
  unfold Prim.islandsDefault Prim.islands
  simp only [List.mem_map]
  exact ⟨fun ⟨q, hq, he⟩ => ⟨q, hq, he.symm⟩, fun ⟨q, hq, he⟩ => ⟨q, hq, he.symm⟩⟩

/--
Claim C1: for every primitive, the islands computed by the
connected-component partitioner partition the triangle-id set
`{0..triangleCount-1}`: every triangle id below the triangle count lies
in some island and ids in islands are valid, distinct islands are
disjoint, and two valid triangles lie in a common island exactly when a
chain of triangles with consecutively shared position keys connects
them.
-/
theorem C1_island_partition (P : Prim) (voxel : List Nat) :
    (∀ t, (∃ r ∈ P.islandsDefault voxel, t ∈ r.1) ↔ t < P.n) ∧
    List.Pairwise (fun r1 r2 => ∀ t, t ∈ r1.1 → t ∉ r2.1) (P.islandsDefault voxel) ∧
    (∀ t1 t2, t1 < P.n → t2 < P.n →
      ((∃ r ∈ P.islandsDefault voxel, t1 ∈ r.1 ∧ t2 ∈ r.1) ↔ P.Chain t1 t2)) := by
  obtain ⟨hA, hB, hC⟩ := sepLoop_spec P voxel ((List.range P.n).length + 1) (List.range P.n)
    (by omega) (fun t ht => List.mem_range.mp ht)
  have hres : ∀ {q}, q ∈ P.islandResults voxel (List.range P.n) → ∃ s, s < P.n ∧
      (∀ t, t ∈ q.1 ↔ P.Chain s t) := by
    intro q hq
    obtain ⟨s, hsmem, hiff, -, -⟩ := hA q hq
    exact ⟨s, List.mem_range.mp hsmem, hiff⟩
  refine ⟨?_, ?_, ?_⟩
  · intro t
    constructor
    · rintro ⟨r, hr, htr⟩
      obtain ⟨q, hq, rfl⟩ := mem_islandsDefault_iff.mp hr
      obtain ⟨s, hsn, hiff⟩ := hres hq
      exact chain_lt ((hiff t).mp htr) hsn
    · intro ht
      obtain ⟨q, hq, htq⟩ := hB t (List.mem_range.mpr ht)
      exact ⟨(q.1, decide (2 ≤ q.2)), mem_islandsDefault_iff.mpr ⟨q, hq, rfl⟩, htq⟩
  · unfold Prim.islandsDefault Prim.islands
    rw [List.pairwise_map]
    exact hC
  · intro t1 t2 h1 h2
    constructor
    · rintro ⟨r, hr, ht1, ht2⟩
      obtain ⟨q, hq, rfl⟩ := mem_islandsDefault_iff.mp hr
      obtain ⟨s, hsn, hiff⟩ := hres hq
      exact Relation.ReflTransGen.trans (chain_symm ((hiff t1).mp ht1)) ((hiff t2).mp ht2)
    · intro hchain
      obtain ⟨q, hq, htq⟩ := hB t1 (List.mem_range.mpr h1)
      obtain ⟨s, hsn, hiff⟩ := hres hq
      refine ⟨(q.1, decide (2 ≤ q.2)), mem_islandsDefault_iff.mpr ⟨q, hq, rfl⟩, htq, ?_⟩
      exact (hiff t2).mpr (Relation.ReflTransGen.trans ((hiff t1).mp htq) hchain)

/-- Concrete primitive used in witnesses: two triangles sharing vertex
id 2, plus nothing else. -/
def sepWitnessPrim : Prim := ⟨[(0, 1, 2), (2, 3, 4)], fun v => v⟩

/-- Witness for claim C1 at a concrete primitive: triangles 0 and 1 of
`sepWitnessPrim` share vertex 2, and the theorem places them in a common
island. -/
theorem C1_island_partition_witness :
    ∃ r ∈ sepWitnessPrim.islandsDefault [], 0 ∈ r.1 ∧ 1 ∈ r.1 :=
  ((C1_island_partition sepWitnessPrim []).2.2 0 1 (by decide) (by decide)).mpr
    (Relation.ReflTransGen.single (by decide))

end Sep

namespace Sep

theorem chain_iff_of_chain {P : Prim} {s s2 t : Nat} (h : P.Chain s2 s) :
    (P.Chain s t ↔ P.Chain s2 t) :=
  ⟨fun ht => Relation.ReflTransGen.trans h ht,
   fun ht => Relation.ReflTransGen.trans (chain_symm h) ht⟩

theorem islands_mem_spec (P : Prim) (voxel : List Nat) {order : List Nat}
    (horder : order.Perm (List.range P.n)) (S : Finset Nat) (b : Bool) :
    ((S, b) ∈ (P.islands voxel order).map fun r => (r.1.toFinset, r.2)) ↔
      ∃ s, s < P.n ∧ (∀ t, t ∈ S ↔ P.Chain s t) ∧
        b = decide (2 ≤ S.sum (P.triVoxelHits voxel)) := by
  have hordermem : ∀ t ∈ order, t < P.n := fun t ht =>
    List.mem_range.mp (horder.mem_iff.mp ht)
  obtain ⟨hA, hB, -⟩ := sepLoop_spec P voxel (order.length + 1) order (by omega) hordermem
  constructor
  · intro hmem
    rcases List.mem_map.mp hmem with ⟨r, hr, hre⟩
    rcases List.mem_map.mp hr with ⟨q, hq, rfl⟩
    obtain ⟨s, hsmem, hiff, hnd, hcnt⟩ := hA q hq
    have hSq : S = q.1.toFinset := by
      have := congrArg Prod.fst hre
      simpa using this.symm
    have hbq : b = decide (2 ≤ q.2) := by
      have := congrArg Prod.snd hre
      simpa using this.symm
    refine ⟨s, hordermem s hsmem, ?_, ?_⟩
    · intro t
      rw [hSq, List.mem_toFinset]
      exact hiff t
    · rw [hbq, hcnt, hSq, List.sum_toFinset _ hnd]
  · rintro ⟨s, hsn, hSiff, hb⟩
    have hsorder : s ∈ order := horder.mem_iff.mpr (List.mem_range.mpr hsn)
    obtain ⟨q, hq, hsq⟩ := hB s hsorder
    obtain ⟨s2, hs2mem, hiff2, hnd, hcnt⟩ := hA q hq
    have hchain : P.Chain s2 s := (hiff2 s).mp hsq
    have hSq : S = q.1.toFinset := by
      ext t
      rw [List.mem_toFinset, hSiff t, hiff2 t, chain_iff_of_chain hchain]
    refine List.mem_map.mpr ⟨(q.1, decide (2 ≤ q.2)), ?_, ?_⟩
    · exact List.mem_map.mpr ⟨q, hq, rfl⟩
    · rw [hSq] at hb ⊢
      rw [hb, List.sum_toFinset _ hnd, hcnt]

/--
Claim C4: the partitioner's output is order independent — for any two
processing orders of the pending triangle set that are permutations of
the triangle ids, the resulting families of islands (as sets of triangle
ids, each with its structural/isolated classification) coincide.
-/
theorem C4_order_independence (P : Prim) (voxel : List Nat) (o1 o2 : List Nat)
    (h1 : o1.Perm (List.range P.n)) (h2 : o2.Perm (List.range P.n)) :
    ((P.islands voxel o1).map fun r => (r.1.toFinset, r.2)).toFinset
      = ((P.islands voxel o2).map fun r => (r.1.toFinset, r.2)).toFinset := by
  ext r
  rcases r with ⟨S, b⟩
  rw [List.mem_toFinset, List.mem_toFinset, islands_mem_spec P voxel h1 S b,
    islands_mem_spec P voxel h2 S b]

/-- Witness for claim C4: processing the two-triangle primitive in
reversed order yields the same island family. -/
theorem C4_order_independence_witness :
    (([1, 0] : List Nat)).Perm (List.range sepWitnessPrim.n) ∧
    (([0, 1] : List Nat)).Perm (List.range sepWitnessPrim.n) ∧
    ((sepWitnessPrim.islands [] [1, 0]).map fun r => (r.1.toFinset, r.2)).toFinset
      = ((sepWitnessPrim.islands [] [0, 1]).map fun r => (r.1.toFinset, r.2)).toFinset :=
  ⟨by decide, by decide,
    C4_order_independence sepWitnessPrim [] [1, 0] [0, 1] (by decide) (by decide)⟩

end Sep

namespace Sep

/--
Failing input for claim C2: two triangles `(0,1,2)` and `(2,1,3)`
sharing the edge `1-2` by vertex id, all four vertex positions distinct,
with the positions of vertices 1 and 2 in the voxel reference set.
-/
def c2Prim : Prim := ⟨[(0, 1, 2), (2, 1, 3)], fun v => v⟩

/-- The voxel reference set of the C2 failing input: the position keys
of vertices 1 and 2. -/
def c2Voxel : List Nat := [1, 2]

/--
Claim C2 fails on the code: on `c2Prim` with voxel set `c2Voxel`, both
triangles of the single island have 2 of their 3 vertices
position-matched by the voxel reference set, so the claim classifies the
island structural; the code classifies it isolated (classification flag
`false`), because the per-vertex duplicate counter
`triangleVoxelConnections` (declared inside the vertex loop rather than
per triangle) never reaches 2 when every position bucket is a singleton.
-/
theorem C2_voxel_classification_bug :
    c2Prim.islandsDefault c2Voxel = [([0, 1], false)] ∧
    c2Prim.specStructural c2Voxel [0, 1] = true ∧
    c2Prim.specTriQualifies c2Voxel 0 = true ∧
    c2Prim.specTriQualifies c2Voxel 1 = true := by
  decide

end Sep

namespace Uv

/-- Vectors in 3D (positions, normals, cardinal directions). -/
abbrev V3 := ℚ × ℚ × ℚ

/-- Texture coordinates in 2D. -/
abbrev V2 := ℚ × ℚ

/--
A primitive as consumed by `CreateUvMapsTransform` (part_003): index
buffer, POSITION and NORMAL attributes, and the optional TEXCOORD_0
attribute.  The source's Float32 arithmetic is carried on rationals; the
UV-related claims (C3, C9) depend only on which primitives receive a UV
buffer, not on rounding of the stored values.
-/
structure UvPrim where
  indices : List Nat
  pos : List V3
  normal : List V3
  uv : Option (List V2)
  deriving DecidableEq

/-- The six candidate face directions, in iteration order (part_003,
lines 18-25): right, left, top, bottom, front, back. -/
def directions : List V3 :=
  [(1, 0, 0), (-1, 0, 0), (0, 1, 0), (0, -1, 0), (0, 0, -1), (0, 0, 1)]

/-- Vector dot product (vector-math `Vector.Dot`). -/
def dot (a b : V3) : ℚ :=
  a.1 * b.1 + a.2.1 * b.2.1 + a.2.2 * b.2.2

/-- The function `getFaceDirection` (part_003, lines 31-43): the first candidate
direction with maximal dot product against the normal (strict
improvement replaces; the initial best similarity is -Infinity, modelled
as `none`). -/
def getFaceDirection (normal : V3) : V3 :=
  (directions.foldl
    (fun (acc : V3 × Option ℚ) dir =>
      let similarity := dot normal dir
      match acc.2 with
      | none => (dir, some similarity)
      | some best => if best < similarity then (dir, some similarity) else acc)
    ((0, 0, 0), none)).1

/-- Component access for a 3D point by axis index. -/
def comp (p : V3) (i : Nat) : ℚ :=
  if i = 0 then p.1 else if i = 1 then p.2.1 else p.2.2

/--
The projection `getPlaneCoordinatesFrom3dPoint` (part_003, lines 45-111).  The depth
axis is the index of the first nonzero component of the face direction
(its sign is computed by the source but never used).  Each case fixes
the projected axes, sign flips and offsets exactly as the source's
`switch`, including the `swapYZ` corrections.
-/
def getPlaneCoordinates (point3d : V3) (direction : V3) (swapYZ : Bool) (offsetSize : ℚ) :
    V2 :=
  let depthAxis : Nat :=
    if direction.1 ≠ 0 then 0 else if direction.2.1 ≠ 0 then 1 else 2
  let axisXYSign : ℚ := if swapYZ then -1 else 1
  if depthAxis = 0 then
    -- lateral view
    let axisX : Nat := if swapYZ then 2 else 1
    let axisY : Nat := if swapYZ then 1 else 2
    let axisXSign : ℚ := if swapYZ then -1 else 1
    let axisXOffset : ℚ := if swapYZ then 0 else -2 * offsetSize
    (axisXYSign * axisXSign * comp point3d axisX + axisXOffset,
     axisXYSign * (-1) * comp point3d axisY)
  else if depthAxis = 1 then
    -- vertical view
    let axisXSign : ℚ := if swapYZ then -1 else 1
    let axisYSign : ℚ := if swapYZ then 1 else -1
    (axisXYSign * axisXSign * comp point3d 0,
     axisXYSign * axisYSign * comp point3d 2)
  else
    -- longitudinal view
    let axisXSign : ℚ := if swapYZ then -1 else 1
    (axisXYSign * axisXSign * comp point3d 0,
     axisXYSign * (-1) * comp point3d 1)

/-- The voxel-grid position correction (part_003, lines 161-164). -/
def correctPos (p : V3) (voff : ℚ) : V3 :=
  (p.1 - voff, p.2.1 + voff, p.2.2 - voff)

/-- The UV coordinate computed for one vertex (part_003, lines 160-174):
plane projection of the corrected position, divided by the texture tile
size, with the V coordinate negated. -/
def uvForVertex (swapYZ : Bool) (ts voff : ℚ) (p3 nrm : V3) : V2 :=
  let p := correctPos p3 voff
  let uv0 := getPlaneCoordinates p (getFaceDirection nrm) swapYZ voff
  (uv0.1 / ts, -(uv0.2 / ts))

/-- POSITION/NORMAL accessor read (out-of-range reads modelled by the
zero default; never hit on well-formed primitives). -/
def v3get (l : List V3) (i : Nat) : V3 :=
  l.getD i (0, 0, 0)

/--
The triangle-by-triangle UV write loop (part_003, lines 148-176):
triangle `t` reads indices `3t`, `3t+1`, `3t+2` and writes the computed
UV into the buffer at each vertex id; a vertex shared by several
triangles is overwritten, last write winning.
-/
def writeTriangles (p : UvPrim) (swapYZ : Bool) (ts voff : ℚ) (buf : List V2) : List V2 :=
  (List.range (p.indices.length / 3)).foldl
    (fun buf t =>
      [p.indices.getD (3 * t) 0, p.indices.getD (3 * t + 1) 0,
        p.indices.getD (3 * t + 2) 0].foldl
        (fun buf vid =>
          buf.set vid (uvForVertex swapYZ ts voff (v3get p.pos vid) (v3get p.normal vid)))
        buf)
    buf

/-- UV generation for one primitive lacking TEXCOORD_0 (part_003, lines
142-176): a zero-initialised buffer of one V2 per POSITION entry is
created, attached, and filled triangle by triangle. -/
def genUv (swapYZ : Bool) (ts voff : ℚ) (p : UvPrim) : UvPrim :=
  { p with uv := some (writeTriangles p swapYZ ts voff (List.replicate p.pos.length (0, 0))) }

/--
The primitive loop of one mesh (part_003, lines 129-176).  Returns the
processed primitive list and whether the `return` statement fired: the
source checks `primitive.getAttribute('TEXCOORD_0')` and, when present,
executes `return` — which exits the whole transform, not just this
primitive's iteration — leaving all remaining primitives untouched.
-/
def runPrims (swapYZ : Bool) (ts voff : ℚ) : List UvPrim → List UvPrim × Bool
  | [] => ([], false)
  | p :: rest =>
    if p.uv.isSome then (p :: rest, true)
    else
      let r := runPrims swapYZ ts voff rest
      (genUv swapYZ ts voff p :: r.1, r.2)

/-- The mesh loop of the transform (part_003, lines 128-178); a
`return` fired inside a mesh aborts the traversal of all later meshes. -/
def runMeshes (swapYZ : Bool) (ts voff : ℚ) : List (List UvPrim) → List (List UvPrim)
  | [] => []
  | m :: rest =>
    let r := runPrims swapYZ ts voff m
    if r.2 then r.1 :: rest else r.1 :: runMeshes swapYZ ts voff rest

/-- The per-primitive effect of `transformMesh(mesh, fromXRotation(..))`
(part_003, lines 116-125): positions and normals are rotated, TEXCOORD_0
is untouched.  The concrete rotation matrix application is abstracted as
`rot`. -/
def rotPrim (rot : V3 → V3) (p : UvPrim) : UvPrim :=
  { p with pos := p.pos.map rot, normal := p.normal.map rot }

/-- The YZ-swap pre-pass of the transform (part_003, lines 114-125),
applied to every mesh when `swapYZ` is set.  Node rotations (which hold
no UV data) are not modelled. -/
def rotPass (swapYZ : Bool) (rot : V3 → V3) (doc : List (List UvPrim)) :
    List (List UvPrim) :=
  if swapYZ then doc.map (List.map (rotPrim rot)) else doc

/-- The whole `CreateUvMapsTransform` (part_003, line 113 onward):
YZ-swap pre-pass, then the UV-generation loops. -/
def CreateUvMapsModel (swapYZ : Bool) (rot : V3 → V3) (ts voff : ℚ)
    (doc : List (List UvPrim)) : List (List UvPrim) :=
  runMeshes swapYZ ts voff (rotPass swapYZ rot doc)

/-- The TEXCOORD_0 buffers of every primitive of every mesh. -/
def uvBuffers (doc : List (List UvPrim)) : List (List (Option (List V2))) :=
  doc.map (List.map UvPrim.uv)

end Uv

namespace Uv

/-- A primitive already carrying a TEXCOORD_0 attribute. -/
def c3PrimWithUv : UvPrim :=
  ⟨[0, 1, 2], [(0, 0, 0), (1, 0, 0), (0, 1, 0)],
    [(0, 0, 1), (0, 0, 1), (0, 0, 1)], some [(0, 0), (1, 0), (0, 1)]⟩

/-- A primitive lacking a TEXCOORD_0 attribute. -/
def c3PrimNoUv : UvPrim :=
  ⟨[0, 1, 2], [(0, 0, 0), (1, 0, 0), (0, 1, 0)],
    [(0, 0, 1), (0, 0, 1), (0, 0, 1)], none⟩

/-- Failing input for claim C3: one mesh holding a primitive with UVs
followed by a primitive without UVs. -/
def c3Doc : List (List UvPrim) := [[c3PrimWithUv, c3PrimNoUv]]

/--
Claim C3 fails on the code: running the UV-generation transform on
`c3Doc` leaves the document unchanged — in particular the second
primitive, which lacks TEXCOORD_0, never receives one.  The attribute
check in the source (part_003 line 131-133, commented as skipping the
primitive) executes `return`, aborting the whole transform at the first
primitive that already carries a TEXCOORD_0 attribute.
-/
theorem C3_missing_uv_not_generated :
    CreateUvMapsModel false (fun v => v) 2 (1 / 8) c3Doc = c3Doc ∧
    (((CreateUvMapsModel false (fun v => v) 2 (1 / 8) c3Doc).getD 0 []).getD 1
        c3PrimWithUv).uv = none := by
  exact ⟨rfl, rfl⟩

/-- The first primitive encountered by the UV traversal, if any. -/
def headPrim : List (List UvPrim) → Option UvPrim
  | [] => none
  | m :: rest =>
    match m with
    | [] => headPrim rest
    | p :: _ => some p

/-- The first primitive of the document (if any) carries a UV
attribute. -/
def HeadUv (doc : List (List UvPrim)) : Prop :=
  ∀ p, headPrim doc = some p → p.uv.isSome

theorem headUv_runMeshes (swapYZ : Bool) (ts voff : ℚ) :
    ∀ doc, HeadUv (runMeshes swapYZ ts voff doc) := by
  intro doc
  induction doc with
  | nil => intro p hp; simp [runMeshes, headPrim] at hp
  | cons m rest ih =>
    match m with
    | [] =>
      intro p hp
      have : runMeshes swapYZ ts voff ([] :: rest)
          = [] :: runMeshes swapYZ ts voff rest := by
        simp [runMeshes, runPrims]
      rw [this] at hp
      exact ih p hp
    | q :: qs =>
      by_cases hq : q.uv.isSome
      · intro p hp
        have : runMeshes swapYZ ts voff ((q :: qs) :: rest) = (q :: qs) :: rest := by
          simp [runMeshes, runPrims, hq]
        rw [this] at hp
        simp [headPrim] at hp
        exact hp ▸ hq
      · intro p hp
        have hrp : runPrims swapYZ ts voff (q :: qs)
            = (genUv swapYZ ts voff q :: (runPrims swapYZ ts voff qs).1,
                (runPrims swapYZ ts voff qs).2) := by
          simp [runPrims, hq]
        have hhead : headPrim (runMeshes swapYZ ts voff ((q :: qs) :: rest))
            = some (genUv swapYZ ts voff q) := by
          by_cases hab : (runPrims swapYZ ts voff qs).2
          · simp [runMeshes, hrp, hab, headPrim]
          · simp [runMeshes, hrp, hab, headPrim]
        rw [hhead] at hp
        cases hp
        simp [genUv]

theorem runMeshes_of_headUv (swapYZ : Bool) (ts voff : ℚ) :
    ∀ doc, HeadUv doc → runMeshes swapYZ ts voff doc = doc := by
  intro doc
  induction doc with
  | nil => intro _; rfl
  | cons m rest ih =>
    match m with
    | [] =>
      intro h
      have hrest : HeadUv rest := by
        intro p hp
        exact h p (by simpa [headPrim] using hp)
      simp [runMeshes, runPrims, ih hrest]
    | q :: qs =>
      intro h
      have hq : q.uv.isSome := h q (by simp [headPrim])
      simp [runMeshes, runPrims, hq]

theorem headPrim_map (f : UvPrim → UvPrim) :
    ∀ doc, headPrim (doc.map (List.map f)) = (headPrim doc).map f := by
  intro doc
  induction doc with
  | nil => rfl
  | cons m rest ih =>
    match m with
    | [] => simpa [headPrim] using ih
    | q :: qs => simp [headPrim]

theorem headUv_rotPass {doc : List (List UvPrim)} (swapYZ : Bool) (rot : V3 → V3)
    (h : HeadUv doc) : HeadUv (rotPass swapYZ rot doc) := by
  unfold rotPass
  by_cases hs : swapYZ
  · simp only [if_pos hs]
    intro p hp
    rw [headPrim_map] at hp
    rcases hhead : headPrim doc with _ | q
    · rw [hhead] at hp; simp at hp
    · rw [hhead] at hp
      simp only [Option.map_some'] at hp
      cases hp
      simpa [rotPrim] using h q hhead
  · simpa [if_neg hs] using h

theorem uvBuffers_rotPass (swapYZ : Bool) (rot : V3 → V3) (doc : List (List UvPrim)) :
    uvBuffers (rotPass swapYZ rot doc) = uvBuffers doc := by
  unfold rotPass uvBuffers
  by_cases hs : swapYZ
  · simp only [if_pos hs, List.map_map]
    congr 1
    funext m
    simp only [Function.comp_apply, List.map_map]
    congr 1
  · simp [if_neg hs]

/--
Claim C9: running the UV-generation transform twice with the same
options leaves every TEXCOORD_0 buffer unchanged the second time: after
the first run the first primitive encountered carries UVs, so the second
run's attribute-presence check fires before modifying anything.
-/
theorem C9_uv_generation_idempotent (swapYZ : Bool) (rot : V3 → V3) (ts voff : ℚ)
    (doc : List (List UvPrim)) :
    uvBuffers (CreateUvMapsModel swapYZ rot ts voff (CreateUvMapsModel swapYZ rot ts voff doc))
      = uvBuffers (CreateUvMapsModel swapYZ rot ts voff doc) := by
  unfold CreateUvMapsModel
  rw [runMeshes_of_headUv swapYZ ts voff _
    (headUv_rotPass swapYZ rot (headUv_runMeshes swapYZ ts voff _)),
    uvBuffers_rotPass]

end Uv

namespace Img

/-- An RGBA pixel as the 4-element channel array handled by
`RgbaBuffer` (channel values are bytes). -/
abbrev Px := Nat × Nat × Nat × Nat

/-- The pixel buffer `RgbaBuffer` (src/src/lib/RgbaBuffer.ts): width, height, and the
flat byte buffer (4 bytes per pixel). -/
structure Rgba where
  width : Nat
  height : Nat
  buffer : List Nat
  deriving DecidableEq

/-- The method `getPixelIndex` (RgbaBuffer.ts lines 32-36): 1-based coordinates to
pixel index. -/
def Rgba.getPixelIndex (img : Rgba) (x y : Nat) : Nat :=
  img.width * (y - 1) + (x - 1)

/-- The method `getPixelByIndex` (lines 46-54); out-of-range byte reads (JavaScript
`undefined`) are modelled by the 0 default and never occur on well-formed
buffers. -/
def Rgba.getPixelByIndex (img : Rgba) (index : Nat) : Px :=
  (img.buffer.getD (4 * index) 0, img.buffer.getD (4 * index + 1) 0,
   img.buffer.getD (4 * index + 2) 0, img.buffer.getD (4 * index + 3) 0)

/-- The method `setPixelByIndex` (lines 60-73) on a 4-element channel array: the
first three channels are stored as given, the alpha slot stores
`a || 255` — JavaScript `||` replaces a zero alpha by 255. -/
def Rgba.setPixelByIndex (img : Rgba) (index : Nat) (c : Px) : Rgba :=
  { img with
    buffer :=
      ((((img.buffer.set (4 * index) c.1).set (4 * index + 1) c.2.1).set
        (4 * index + 2) c.2.2.1).set
        (4 * index + 3) (if c.2.2.2 = 0 then 255 else c.2.2.2)) }

/--
The method `transformArea` (lines 79-101): iterate rows `y..finalY` and columns
`x..finalX`; within a row the pixel index is recomputed when the tracked
index is `null` or `0` (both falsy in JavaScript) and incremented
otherwise; each visited pixel is read, passed to the callback together
with its coordinates, and written back.
-/
def Rgba.innerStep (cb : Px → Nat × Nat → Px) (cY : Nat) (st : Rgba × Option Nat)
    (cX : Nat) : Rgba × Option Nat :=
  -- one iteration of the inner (column) loop of `transformArea`
  -- (RgbaBuffer.ts lines 85-99)
  let index :=
    match st.2 with
    | some i => if i = 0 then st.1.getPixelIndex cX cY else i + 1
    | none => st.1.getPixelIndex cX cY
  (st.1.setPixelByIndex index (cb (st.1.getPixelByIndex index) (cX, cY)), some index)

def Rgba.transformArea (img : Rgba) (x y width height : Nat)
    (cb : Px → Nat × Nat → Px) : Rgba :=
  let finalX := min (x + width) img.width
  let finalY := min (y + height) img.height
  (List.range' y (finalY + 1 - y)).foldl
    (fun img1 cY =>
      ((List.range' x (finalX + 1 - x)).foldl (Rgba.innerStep cb cY) (img1, none)).1)
    img

/-- The method `transform` (lines 103-105): `transformArea` over the whole image. -/
def Rgba.transform (img : Rgba) (cb : Px → Nat × Nat → Px) : Rgba :=
  img.transformArea 1 1 img.width img.height cb

/-- The MRAO channel-reorder callback of `TexturesTransform.loadTexture`
(TexturesTransform.ts line 53):
`channels => [channels[2], channels[1], channels[0], channels[3]]`. -/
def mraoCallback : Px → Nat × Nat → Px :=
  fun c _ => (c.2.2.1, c.2.1, c.1, c.2.2.2)

/-- The channel-reorder step applied to a texture loaded into the MRAO
slot. -/
def mraoReorder (img : Rgba) : Rgba :=
  img.transform mraoCallback

end Img

namespace Img

/-- The pixel value actually stored by `setPixelByIndex` for a requested
channel array: a zero alpha is replaced by 255 (JavaScript `a || 255`). -/
def alphaFix (c : Px) : Px :=
  (c.1, c.2.1, c.2.2.1, if c.2.2.2 = 0 then 255 else c.2.2.2)

/-- Coordinate-blind channel transform of the MRAO reorder callback. -/
def mraoSwap (c : Px) : Px :=
  (c.2.2.1, c.2.1, c.1, c.2.2.2)

/-- Reading one pixel and writing back the transformed value — the net
effect of one `transformArea` iteration for a coordinate-blind
callback. -/
def applyPix (cb0 : Px → Px) (img : Rgba) (i : Nat) : Rgba :=
  img.setPixelByIndex i (cb0 (img.getPixelByIndex i))

theorem getD_set_ne' {l : List Nat} {i j a d : Nat} (h : i ≠ j) :
    (l.set i a).getD j d = l.getD j d := by
  simp [List.getD_eq_getElem?_getD, List.getElem?_set_ne h]

theorem getD_set_self' {l : List Nat} {n a d : Nat} (h : n < l.length) :
    (l.set n a).getD n d = a := by
  simp [List.getD_eq_getElem?_getD, List.getElem?_set_eq_of_lt a h]

theorem bytes_setPixel_ne {img : Rgba} {i m : Nat} {c : Px}
    (h0 : m ≠ 4 * i) (h1 : m ≠ 4 * i + 1) (h2 : m ≠ 4 * i + 2) (h3 : m ≠ 4 * i + 3) :
    (img.setPixelByIndex i c).buffer.getD m 0 = img.buffer.getD m 0 := by
  unfold Rgba.setPixelByIndex
  dsimp only
  rw [getD_set_ne' (Ne.symm h3), getD_set_ne' (Ne.symm h2), getD_set_ne' (Ne.symm h1),
    getD_set_ne' (Ne.symm h0)]

theorem width_setPixel (img : Rgba) (i : Nat) (c : Px) :
    (img.setPixelByIndex i c).width = img.width := rfl

theorem height_setPixel (img : Rgba) (i : Nat) (c : Px) :
    (img.setPixelByIndex i c).height = img.height := rfl

theorem length_setPixel (img : Rgba) (i : Nat) (c : Px) :
    (img.setPixelByIndex i c).buffer.length = img.buffer.length := by
  simp [Rgba.setPixelByIndex]

theorem getPixel_setPixel_ne {img : Rgba} {i j : Nat} (c : Px) (h : i ≠ j) :
    (img.setPixelByIndex i c).getPixelByIndex j = img.getPixelByIndex j := by
  unfold Rgba.getPixelByIndex
  rw [bytes_setPixel_ne (by omega) (by omega) (by omega) (by omega),
    bytes_setPixel_ne (by omega) (by omega) (by omega) (by omega),
    bytes_setPixel_ne (by omega) (by omega) (by omega) (by omega),
    bytes_setPixel_ne (by omega) (by omega) (by omega) (by omega)]

theorem getPixel_setPixel_self {img : Rgba} {i : Nat} (c : Px)
    (hlen : 4 * i + 4 ≤ img.buffer.length) :
    (img.setPixelByIndex i c).getPixelByIndex i = alphaFix c := by
  unfold Rgba.setPixelByIndex Rgba.getPixelByIndex alphaFix
  dsimp only
  rw [getD_set_ne' (by omega), getD_set_ne' (by omega), getD_set_ne' (by omega),
    getD_set_self' (by simpa using by omega)]
  rw [getD_set_ne' (by omega), getD_set_ne' (by omega),
    getD_set_self' (by simp; omega)]
  rw [getD_set_ne' (by omega),
    getD_set_self' (by simp; omega)]
  rw [getD_set_self' (by simp; omega)]

end Img

namespace Img

theorem width_applyPix (cb0 : Px → Px) (img : Rgba) (i : Nat) :
    (applyPix cb0 img i).width = img.width := rfl

theorem length_applyPix (cb0 : Px → Px) (img : Rgba) (i : Nat) :
    (applyPix cb0 img i).buffer.length = img.buffer.length :=
  length_setPixel img i _

theorem width_foldl_applyPix (cb0 : Px → Px) :
    ∀ (l : List Nat) (img : Rgba), (l.foldl (applyPix cb0) img).width = img.width := by
  intro l
  induction l with
  | nil => intro img; rfl
  | cons j l ih => intro img; rw [List.foldl_cons, ih, width_applyPix]

theorem length_foldl_applyPix (cb0 : Px → Px) :
    ∀ (l : List Nat) (img : Rgba),
      (l.foldl (applyPix cb0) img).buffer.length = img.buffer.length := by
  intro l
  induction l with
  | nil => intro img; rfl
  | cons j l ih => intro img; rw [List.foldl_cons, ih, length_applyPix]

theorem getPixel_foldl_out (cb0 : Px → Px) :
    ∀ (l : List Nat) (img : Rgba) (i : Nat), (∀ j ∈ l, j ≠ i) →
      (l.foldl (applyPix cb0) img).getPixelByIndex i = img.getPixelByIndex i := by
  intro l
  induction l with
  | nil => intro img i _; rfl
  | cons j l ih =>
    intro img i h
    rw [List.foldl_cons, ih _ i (fun k hk => h k (List.mem_cons_of_mem _ hk))]
    exact getPixel_setPixel_ne _ (h j (List.mem_cons_self j l))

theorem getPixel_foldl_range' (cb0 : Px → Px) (N i : Nat) (img : Rgba)
    (hi : i < N) (hlen : 4 * N ≤ img.buffer.length) :
    ((List.range' 0 N).foldl (applyPix cb0) img).getPixelByIndex i
      = alphaFix (cb0 (img.getPixelByIndex i)) := by
  have hsplit : List.range' 0 N = (List.range' 0 i ++ [i]) ++ List.range' (i + 1) (N - i - 1) := by
    have h1 : List.range' 0 (i + 1) = List.range' 0 i ++ [i] := by
      have h := @List.range'_concat 1 0 i
      simpa using h
    have h2 : List.range' 0 (i + 1) ++ List.range' (i + 1) (N - i - 1)
        = List.range' 0 ((N - i - 1) + (i + 1)) := by
      have h := List.range'_append 0 (i + 1) (N - i - 1) 1
      simpa using h
    rw [← h1, h2]
    congr 1
    omega
  rw [hsplit, List.foldl_append, List.foldl_append]
  have hmid : ∀ img1 : Rgba, ([i].foldl (applyPix cb0) img1) = applyPix cb0 img1 i := by
    intro img1; rfl
  rw [hmid]
  have hpre : ((List.range' 0 i).foldl (applyPix cb0) img).getPixelByIndex i
      = img.getPixelByIndex i := by
    refine getPixel_foldl_out cb0 _ img i ?_
    intro j hj
    have := List.mem_range'_1.mp hj
    omega
  have hprelen : ((List.range' 0 i).foldl (applyPix cb0) img).buffer.length
      = img.buffer.length := length_foldl_applyPix cb0 _ img
  have hmidval : (applyPix cb0 ((List.range' 0 i).foldl (applyPix cb0) img) i).getPixelByIndex i
      = alphaFix (cb0 (img.getPixelByIndex i)) := by
    rw [show (applyPix cb0 ((List.range' 0 i).foldl (applyPix cb0) img) i).getPixelByIndex i
        = alphaFix (cb0 (((List.range' 0 i).foldl (applyPix cb0) img).getPixelByIndex i))
      from getPixel_setPixel_self _ (by omega), hpre]
  rw [getPixel_foldl_out cb0 _ _ i ?_, hmidval]
  intro j hj
  have := List.mem_range'_1.mp hj
  omega

theorem innerRow_spec {cb : Px → Nat × Nat → Px} {cb0 : Px → Px}
    (hcb : ∀ c q, cb c q = cb0 c) (W cY : Nat) :
    ∀ (len cX0 : Nat) (img1 : Rgba) (prev : Option Nat), 1 ≤ cX0 → img1.width = W →
      (prev = none ∨ ∃ i, prev = some i ∧ i + 1 = W * (cY - 1) + (cX0 - 1)) →
      ((List.range' cX0 len).foldl (Rgba.innerStep cb cY) (img1, prev)).1
        = (List.range' (W * (cY - 1) + (cX0 - 1)) len).foldl (applyPix cb0) img1 := by
  intro len
  induction len with
  | zero => intro cX0 img1 prev _ _ _; rfl
  | succ len ih =>
    intro cX0 img1 prev hx hw hprev
    rw [List.range'_succ cX0 len 1, List.range'_succ (W * (cY - 1) + (cX0 - 1)) len 1,
      List.foldl_cons, List.foldl_cons]
    have hidx : Rgba.innerStep cb cY (img1, prev) cX0
        = (applyPix cb0 img1 (W * (cY - 1) + (cX0 - 1)),
            some (W * (cY - 1) + (cX0 - 1))) := by
      unfold Rgba.innerStep applyPix Rgba.getPixelIndex
      rcases hprev with h | ⟨i, hsome, hi⟩
      · subst h
        dsimp only
        rw [hcb, hw]
      · subst hsome
        dsimp only
        by_cases hz : i = 0
        · subst hz
          rw [if_pos rfl, hcb, hw]
        · rw [if_neg hz, hcb, hi]
    rw [hidx]
    have harith : W * (cY - 1) + ((cX0 + 1) - 1) = (W * (cY - 1) + (cX0 - 1)) + 1 := by
      omega
    have hrec := ih (cX0 + 1) (applyPix cb0 img1 (W * (cY - 1) + (cX0 - 1)))
      (some (W * (cY - 1) + (cX0 - 1))) (by omega)
      (by rw [width_applyPix, hw])
      (Or.inr ⟨W * (cY - 1) + (cX0 - 1), rfl, by omega⟩)
    rw [hrec, harith]

theorem rows_spec {cb : Px → Nat × Nat → Px} {cb0 : Px → Px}
    (hcb : ∀ c q, cb c q = cb0 c) (W : Nat) :
    ∀ (H : Nat) (img1 : Rgba), img1.width = W →
      ((List.range' 1 H).foldl
        (fun im cY => ((List.range' 1 W).foldl (Rgba.innerStep cb cY) (im, none)).1) img1)
        = (List.range' 0 (W * H)).foldl (applyPix cb0) img1 := by
  intro H
  induction H with
  | zero =>
    intro img1 _
    rw [Nat.mul_zero]
    rfl
  | succ H ih =>
    intro img1 hw
    have hconcat : List.range' 1 (H + 1) = List.range' 1 H ++ [1 + H] := by
      have h := @List.range'_concat 1 1 H
      simpa using h
    rw [hconcat, List.foldl_append, ih img1 hw]
    have hwprev : ((List.range' 0 (W * H)).foldl (applyPix cb0) img1).width = W := by
      rw [width_foldl_applyPix, hw]
    rw [List.foldl_cons, List.foldl_nil]
    rw [innerRow_spec hcb W (1 + H) W 1 _ none (le_refl 1) hwprev (Or.inl rfl)]
    have hbase : W * ((1 + H) - 1) + (1 - 1) = W * H := by
      have h1 : (1 + H) - 1 = H := by omega
      rw [h1]
      simp
    rw [hbase, ← List.foldl_append]
    have happ : List.range' 0 (W * H) ++ List.range' (W * H) W
        = List.range' 0 (W * (H + 1)) := by
      have h := List.range'_append 0 (W * H) W 1
      simp only [Nat.one_mul, Nat.zero_add] at h
      rw [h]
      congr 1
      ring
    rw [happ]

theorem transform_pixel {cb : Px → Nat × Nat → Px} {cb0 : Px → Px}
    (hcb : ∀ c q, cb c q = cb0 c) (img : Rgba) (i : Nat)
    (hwf : img.buffer.length = 4 * (img.width * img.height))
    (hi : i < img.width * img.height) :
    (img.transform cb).getPixelByIndex i = alphaFix (cb0 (img.getPixelByIndex i)) := by
  unfold Rgba.transform Rgba.transformArea
  have hfx : min (1 + img.width) img.width = img.width :=
    min_eq_right (by omega)
  have hfy : min (1 + img.height) img.height = img.height :=
    min_eq_right (by omega)
  simp only [hfx, hfy, Nat.add_sub_cancel]
  rw [rows_spec hcb img.width img.height img rfl]
  exact getPixel_foldl_range' cb0 _ i img hi (by omega)

end Img

namespace Img

/-- An image of one pixel `(200, 120, 40, 0)`. -/
def c5Img : Rgba := ⟨1, 1, [200, 120, 40, 0]⟩

/--
Claim C5 fails on the code at alpha 0: the MRAO reorder of the pixel
`(200, 120, 40, 0)` yields `(40, 120, 200, 255)`, not `(40, 120, 200, 0)`
as the claim's channel-3-unchanged clause requires, because
`setPixelByIndex` stores the alpha channel as `a || 255`.
-/
theorem C5_mrao_counterexample :
    (mraoReorder c5Img).getPixelByIndex 0 = (40, 120, 200, 255) ∧
    ¬(mraoReorder c5Img).getPixelByIndex 0 = (40, 120, 200, 0) := by
  decide

/--
Claim C5 amended: for every pixel `(m, r, o, a)` of a well-formed
texture in the MRAO slot, the channel-reorder step produces
`(o, r, m, a)` whenever `a` is nonzero, and `(o, r, m, 255)` when
`a = 0` (channels 0 and 2 swapped, channel 1 unchanged, channel 3
unchanged unless zero, a zero alpha being replaced by 255).
-/
theorem C5_mrao_channel_swap_amended (img : Rgba) (i m r o a : Nat)
    (hwf : img.buffer.length = 4 * (img.width * img.height))
    (hi : i < img.width * img.height)
    (hpx : img.getPixelByIndex i = (m, r, o, a)) :
    (mraoReorder img).getPixelByIndex i = (o, r, m, if a = 0 then 255 else a) := by
  unfold mraoReorder
  rw [transform_pixel (show ∀ c q, mraoCallback c q = mraoSwap c from fun c q => rfl)
    img i hwf hi, hpx]
  rfl

/-- An image of one pixel, the spec example `(200, 120, 40, 255)`. -/
def c5WitnessImg : Rgba := ⟨1, 1, [200, 120, 40, 255]⟩

/-- Witness for the amended claim C5 at the spec's example pixel:
`(200, 120, 40, 255)` reorders to `(40, 120, 200, 255)`. -/
theorem C5_mrao_channel_swap_amended_witness :
    c5WitnessImg.buffer.length = 4 * (c5WitnessImg.width * c5WitnessImg.height) ∧
    0 < c5WitnessImg.width * c5WitnessImg.height ∧
    (mraoReorder c5WitnessImg).getPixelByIndex 0 = (40, 120, 200, 255) :=
  ⟨by decide, by decide,
    by simpa using
      C5_mrao_channel_swap_amended c5WitnessImg 0 200 120 40 255 (by decide) (by decide)
        (by decide)⟩

end Img

namespace Tex

/-- A texture created in the glTF document (name, URI, image bytes). -/
structure GTexture where
  name : String
  uri : String
  image : List Nat
  deriving DecidableEq

/--
The texture-related state of one conversion run: the
`cachedData['texture_files']` path-keyed cache and the
`cachedData['textures']` materialId-keyed bundle cache of
`DuMeshTransformer.rememberMany`/`setRememberMany`
(DuMeshTransformer.ts lines 271-300), the document's created textures
(handles are positions in `textures`), and the log of files read from
disk.
-/
structure TexState where
  fileCache : List (String × Nat)
  bundles : List (String × List (String × Nat))
  textures : List GTexture
  reads : List String
  deriving DecidableEq

/--
The function `loadTexture` (TexturesTransform.ts lines 17-74).  On a path-cache hit
the cached texture handle is renamed to the merged identifier and
returned; nothing is read or decoded.  On a miss the file must exist,
its bytes are read and processed, a new texture is created in the
document and the path cache is extended.

Abstracted collaborators, none of which affect caching: `merge` stands
for `findCommonWords(..).join('')` (CommonWords.ts, cosmetic naming
only), `extOf` for `path.extname`, and `decodeStep` for the byte
processing of lines 42-59 (DDS or raster decode, the MRAO channel swap
— modelled bytewise in the `Img` namespace — and PNG re-encode),
returning the stored bytes and final extension.
-/
def loadTexture (fs : String → Option (List Nat)) (merge : String → String → String)
    (decodeStep : String → String → List Nat → List Nat × String)
    (extOf : String → String)
    (textureFile materialId textureType : String) (s : TexState) :
    Except String (TexState × Nat) :=
  match s.fileCache.lookup textureFile with
  | some tid =>
    let existing := s.textures.getD tid ⟨"", "", []⟩
    let textureId := merge existing.name materialId ++ "_" ++ textureType
    let ext := extOf existing.uri
    Except.ok
      ({ s with
          textures := s.textures.set tid
            { existing with name := textureId, uri := "textures/" ++ textureId ++ ext } },
        tid)
  | none =>
    match fs textureFile with
    | none =>
      Except.error ("Tried to load texture file into glTF, but it was not found: "
        ++ textureFile)
    | some raw =>
      let processed := decodeStep textureType (extOf textureFile) raw
      let textureId := materialId ++ "_" ++ textureType
      let tid := s.textures.length
      Except.ok
        ({ s with
            reads := s.reads ++ [textureFile],
            textures := s.textures
              ++ [⟨textureId, "textures/" ++ textureId ++ processed.2, processed.1⟩],
            fileCache := s.fileCache ++ [(textureFile, tid)] },
          tid)

/-- A `MaterialDefinition` as consumed by the textures transform: the
game material id and its texture files per slot, in object-key order. -/
structure GameMat where
  materialId : String
  files : List (String × String)
  deriving DecidableEq

/-- The slot-loading loop of `getGameTextures` (TexturesTransform.ts
lines 86-91): each slot's file is resolved against the data directory
(`jp` stands for `path.join`) and loaded. -/
def loadSlots (fs : String → Option (List Nat)) (merge : String → String → String)
    (decodeStep : String → String → List Nat → List Nat × String)
    (extOf : String → String) (jp : String → String → String) (d : String)
    (mat : GameMat) :
    List (String × String) → TexState → Except String (TexState × List (String × Nat))
  | [], s => Except.ok (s, [])
  | (ty, rel) :: rest, s =>
    match loadTexture fs merge decodeStep extOf (jp d rel) mat.materialId ty s with
    | Except.error e => Except.error e
    | Except.ok (s', tid) =>
      match loadSlots fs merge decodeStep extOf jp d mat rest s' with
      | Except.error e => Except.error e
      | Except.ok (s'', out) => Except.ok (s'', (ty, tid) :: out)

/-- The function `getGameTextures` (TexturesTransform.ts lines 77-93): the whole slot
bundle is cached per materialId via `rememberMany('textures', ..)`; on a
miss, a missing data directory is a fatal error, otherwise every slot is
loaded and the bundle is stored. -/
def getGameTextures (fs : String → Option (List Nat)) (merge : String → String → String)
    (decodeStep : String → String → List Nat → List Nat × String)
    (extOf : String → String) (jp : String → String → String)
    (dataDir : Option String) (mat : GameMat) (s : TexState) :
    Except String (TexState × List (String × Nat)) :=
  match s.bundles.lookup mat.materialId with
  | some b => Except.ok (s, b)
  | none =>
    match dataDir with
    | none => Except.error "Missing game directory, textures unavailable"
    | some d =>
      match loadSlots fs merge decodeStep extOf jp d mat mat.files s with
      | Except.error e => Except.error e
      | Except.ok (s', bundle) =>
        Except.ok ({ s' with bundles := s'.bundles ++ [(mat.materialId, bundle)] }, bundle)

/-- A glTF material's texture slots (TexturesTransform.ts lines
103-107). -/
structure GltfMat where
  name : String
  baseColorTex : Option Nat
  normalTex : Option Nat
  metallicRoughnessTex : Option Nat
  occlusionTex : Option Nat
  emissiveTex : Option Nat
  deriving DecidableEq

/-- Applying a resolved texture bundle to a glTF material
(TexturesTransform.ts lines 103-107): the MRAO texture fills both the
metallic-roughness and the occlusion slot. -/
def applyTextures (m : GltfMat) (bundle : List (String × Nat)) : GltfMat :=
  { m with
    baseColorTex := bundle.lookup "color",
    normalTex := bundle.lookup "normal",
    metallicRoughnessTex := bundle.lookup "mrao",
    occlusionTex := bundle.lookup "mrao",
    emissiveTex := bundle.lookup "emissive" }

/-- The transform `TexturesTransform` (TexturesTransform.ts lines 95-109): for every
glTF material paired with a game material
(`getGltfMaterialsWithGameMaterials`, precomputed here as `pairs`),
resolve the texture bundle and apply it. -/
def texturesTransformModel (fs : String → Option (List Nat))
    (merge : String → String → String)
    (decodeStep : String → String → List Nat → List Nat × String)
    (extOf : String → String) (jp : String → String → String)
    (dataDir : Option String) :
    List (GltfMat × GameMat) → TexState → Except String (TexState × List GltfMat)
  | [], s => Except.ok (s, [])
  | (m, gm) :: rest, s =>
    match getGameTextures fs merge decodeStep extOf jp dataDir gm s with
    | Except.error e => Except.error e
    | Except.ok (s', bundle) =>
      match texturesTransformModel fs merge decodeStep extOf jp dataDir rest s' with
      | Except.error e => Except.error e
      | Except.ok (s'', out) => Except.ok (s'', applyTextures m bundle :: out)

end Tex

namespace Pipe

/-- The queue runner `DuMeshTransformer.processQueue` (DuMeshTransformer.ts lines 75-89):
the queued commands run strictly in sequence against the shared state; a
raised error propagates immediately, skipping all later commands. -/
def processQueue {σ : Type} : List (σ → Except String σ) → σ → Except String σ
  | [], s => Except.ok s
  | c :: cs, s =>
    match c s with
    | Except.error e => Except.error e
    | Except.ok s' => processQueue cs s'

/-- The writer `DuMeshTransformer.saveToFile` (DuMeshTransformer.ts lines 223-254):
the queue is processed first; the output file is produced only when the
whole queue succeeded. -/
def saveToFile {σ Out : Type} (write : σ → Out)
    (cmds : List (σ → Except String σ)) (s : σ) : Except String Out :=
  match processQueue cmds s with
  | Except.error e => Except.error e
  | Except.ok s' => Except.ok (write s')

end Pipe

namespace Tex

theorem lookup_append_of_none {l : List (String × Nat)} {f : String} {v : Nat}
    (h : l.lookup f = none) : (l ++ [(f, v)]).lookup f = some v := by
  induction l with
  | nil => simp [List.lookup]
  | cons e l ih =>
    rcases e with ⟨k, w⟩
    rw [List.cons_append, List.lookup]
    rw [List.lookup] at h
    rcases hk : (f == k) with _ | _
    · rw [hk] at h
      simp only [hk]
      exact ih h
    · rw [hk] at h
      simp at h

theorem countP_key_eq_zero_of_lookup_none {l : List (String × Nat)} {f : String}
    (h : l.lookup f = none) : l.countP (fun e => e.1 == f) = 0 := by
  induction l with
  | nil => rfl
  | cons e l ih =>
    rcases e with ⟨k, w⟩
    rw [List.lookup] at h
    rcases hk : (f == k) with _ | _
    · rw [hk] at h
      rw [List.countP_cons]
      have hkf : ((k, w).1 == f) = false := by
        have : ¬f = k := by simpa using hk
        simpa using fun hh => this hh.symm
      rw [hkf]
      simp [ih h]
    · rw [hk] at h
      simp at h

theorem loadTexture_hit {fs : String → Option (List Nat)}
    {merge : String → String → String}
    {decodeStep : String → String → List Nat → List Nat × String}
    {extOf : String → String} {f m t : String} {s : TexState} {tid : Nat}
    (h : s.fileCache.lookup f = some tid) :
    ∃ s', loadTexture fs merge decodeStep extOf f m t s = Except.ok (s', tid) ∧
      s'.reads = s.reads ∧ s'.textures.length = s.textures.length ∧
      s'.fileCache = s.fileCache ∧ s'.bundles = s.bundles := by
  unfold loadTexture
  rw [h]
  exact ⟨_, rfl, rfl, by simp, rfl, rfl⟩

/--
Claim C6: two texture-load requests naming the same source file path
read and decode the file exactly once.  Starting from a state whose path
cache has no entry for `f`, the first request reads the file once,
creates one texture and one cache entry keyed by `f`; the second request
(for any other material id and slot) returns the very same texture
handle without reading anything, leaving the read log, the texture
count, and the single cache entry for `f` unchanged.
-/
theorem C6_texture_dedup (fs : String → Option (List Nat))
    (merge : String → String → String)
    (decodeStep : String → String → List Nat → List Nat × String)
    (extOf : String → String) (f m1 t1 m2 t2 : String) (s0 : TexState)
    (raw : List Nat) (hmiss : s0.fileCache.lookup f = none)
    (hfs : fs f = some raw) :
    ∃ s1 tid s2,
      loadTexture fs merge decodeStep extOf f m1 t1 s0 = Except.ok (s1, tid) ∧
      loadTexture fs merge decodeStep extOf f m2 t2 s1 = Except.ok (s2, tid) ∧
      s1.reads = s0.reads ++ [f] ∧
      s2.reads = s1.reads ∧
      s1.textures.length = s0.textures.length + 1 ∧
      s2.textures.length = s1.textures.length ∧
      s2.fileCache = s0.fileCache ++ [(f, tid)] ∧
      s2.fileCache.countP (fun e => e.1 == f) = 1 := by
  have hfirst : loadTexture fs merge decodeStep extOf f m1 t1 s0 =
      Except.ok
        ({ s0 with
            reads := s0.reads ++ [f],
            textures := s0.textures
              ++ [⟨m1 ++ "_" ++ t1,
                    "textures/" ++ (m1 ++ "_" ++ t1) ++ (decodeStep t1 (extOf f) raw).2,
                    (decodeStep t1 (extOf f) raw).1⟩],
            fileCache := s0.fileCache ++ [(f, s0.textures.length)] },
          s0.textures.length) := by
    unfold loadTexture
    rw [hmiss, hfs]
  set s1 : TexState :=
    { s0 with
        reads := s0.reads ++ [f],
        textures := s0.textures
          ++ [⟨m1 ++ "_" ++ t1,
                "textures/" ++ (m1 ++ "_" ++ t1) ++ (decodeStep t1 (extOf f) raw).2,
                (decodeStep t1 (extOf f) raw).1⟩],
        fileCache := s0.fileCache ++ [(f, s0.textures.length)] } with hs1
  have hlookup1 : s1.fileCache.lookup f = some s0.textures.length := by
    rw [hs1]
    exact lookup_append_of_none hmiss
  obtain ⟨s2, h2, h2r, h2t, h2c, -⟩ :=
    @loadTexture_hit fs merge decodeStep extOf f m2 t2 s1 s0.textures.length hlookup1
  refine ⟨s1, s0.textures.length, s2, hfirst, h2, by rw [hs1], h2r, by rw [hs1]; simp,
    h2t, by rw [h2c, hs1], ?_⟩
  rw [h2c, hs1]
  show (s0.fileCache ++ [(f, s0.textures.length)]).countP (fun e => e.1 == f) = 1
  rw [List.countP_append, countP_key_eq_zero_of_lookup_none hmiss]
  simp

end Tex

namespace Tex

/-- Concrete file system with a single texture file. -/
def c6fs : String → Option (List Nat) :=
  fun p => if p = "data/normal.png" then some [7, 7] else none

/-- Concrete stand-ins for the abstracted collaborators. -/
def c6merge : String → String → String := fun a b => a ++ b

/-- Concrete byte-processing stand-in: keep bytes and extension. -/
def c6decode : String → String → List Nat → List Nat × String := fun _ e b => (b, e)

/-- Concrete extension extractor stand-in. -/
def c6ext : String → String := fun _ => ".png"

/-- The empty texture state at the start of a conversion run. -/
def c6s0 : TexState := ⟨[], [], [], []⟩

/-- Witness for claim C6 at a concrete run: two materials requesting the
same normal-map file share one read and one cache entry. -/
theorem C6_texture_dedup_witness :
    ∃ s1 tid s2,
      loadTexture c6fs c6merge c6decode c6ext "data/normal.png" "mat1" "normal" c6s0
        = Except.ok (s1, tid) ∧
      loadTexture c6fs c6merge c6decode c6ext "data/normal.png" "mat2" "normal" s1
        = Except.ok (s2, tid) ∧
      s1.reads = c6s0.reads ++ ["data/normal.png"] ∧
      s2.reads = s1.reads ∧
      s1.textures.length = c6s0.textures.length + 1 ∧
      s2.textures.length = s1.textures.length ∧
      s2.fileCache = c6s0.fileCache ++ [("data/normal.png", tid)] ∧
      s2.fileCache.countP (fun e => e.1 == "data/normal.png") = 1 :=
  C6_texture_dedup c6fs c6merge c6decode c6ext "data/normal.png" "mat1" "normal" "mat2"
    "normal" c6s0 [7, 7] rfl rfl

end Tex

namespace Tex

theorem lookup_mem {β : Type} {l : List (String × β)} {f : String} {v : β}
    (h : l.lookup f = some v) : (f, v) ∈ l := by
  induction l with
  | nil => simp [List.lookup] at h
  | cons e l ih =>
    rcases e with ⟨k, w⟩
    rw [List.lookup] at h
    rcases hk : (f == k) with _ | _
    · rw [hk] at h
      exact List.mem_cons_of_mem _ (ih h)
    · rw [hk] at h
      have hv : w = v := by
        injection h
      have hf : f = k := by simpa using hk
      subst hv
      subst hf
      exact List.mem_cons_self _ _

/-- Every cached path points at a file that exists: entries are only
created after a successful existence check and read. -/
def CacheSound (fs : String → Option (List Nat)) (s : TexState) : Prop :=
  ∀ p tid, (p, tid) ∈ s.fileCache → ∃ b, fs p = some b

theorem loadTexture_sound {fs : String → Option (List Nat)}
    {merge : String → String → String}
    {decodeStep : String → String → List Nat → List Nat × String}
    {extOf : String → String} {f m t : String} {s s' : TexState} {tid : Nat}
    (h : loadTexture fs merge decodeStep extOf f m t s = Except.ok (s', tid))
    (hc : CacheSound fs s) :
    (∃ b, fs f = some b) ∧ CacheSound fs s' ∧ s'.bundles = s.bundles := by
  unfold loadTexture at h
  rcases hl : s.fileCache.lookup f with _ | tid0
  · rw [hl] at h
    rcases hf : fs f with _ | raw
    · rw [hf] at h
      exact Except.noConfusion h
    · rw [hf] at h
      have h' := h
      injection h' with h''
      have hst : _ = s' := congrArg Prod.fst h''
      subst hst
      refine ⟨⟨raw, rfl⟩, ?_, rfl⟩
      intro p ptid hp
      have hp' : (p, ptid) ∈ s.fileCache ++ [(f, s.textures.length)] := hp
      rcases List.mem_append.mp hp' with hp2 | hp2
      · exact hc p ptid hp2
      · rw [List.mem_singleton] at hp2
        have hpf : p = f := congrArg Prod.fst hp2
        exact ⟨raw, by rw [hpf, hf]⟩
  · rw [hl] at h
    have h' := h
    injection h' with h''
    have hst : _ = s' := congrArg Prod.fst h''
    subst hst
    refine ⟨hc f tid0 (lookup_mem hl), ?_, rfl⟩
    intro p ptid hp
    have hp' : (p, ptid) ∈ s.fileCache := hp
    exact hc p ptid hp'

end Tex

namespace Tex

theorem loadSlots_sound {fs : String → Option (List Nat)}
    {merge : String → String → String}
    {decodeStep : String → String → List Nat → List Nat × String}
    {extOf : String → String} {jp : String → String → String} {d : String}
    {mat : GameMat} :
    ∀ (files : List (String × String)) (s s' : TexState) (out : List (String × Nat)),
      loadSlots fs merge decodeStep extOf jp d mat files s = Except.ok (s', out) →
      CacheSound fs s →
      (∀ e ∈ files, ∃ b, fs (jp d e.2) = some b) ∧ CacheSound fs s' ∧
        s'.bundles = s.bundles := by
  intro files
  induction files with
  | nil =>
    intro s s' out h hc
    have h' := h
    injection h' with h''
    have hst : s = s' := congrArg Prod.fst h''
    subst hst
    exact ⟨by simp, hc, rfl⟩
  | cons e rest ih =>
    intro s s' out h hc
    rcases e with ⟨ty, rel⟩
    rw [loadSlots] at h
    split at h
    · exact Except.noConfusion h
    next s1 tid h1 =>
      split at h
      · exact Except.noConfusion h
      next s2 out2 h2 =>
        have h' := h
        injection h' with h''
        have hst : s2 = s' := congrArg Prod.fst h''
        subst hst
        obtain ⟨hex1, hc1, hb1⟩ := loadTexture_sound h1 hc
        obtain ⟨hexr, hcr, hbr⟩ := ih s1 _ out2 h2 hc1
        refine ⟨?_, hcr, by rw [hbr, hb1]⟩
        intro q hq
        rcases List.mem_cons.mp hq with hq | hq
        · subst hq
          exact hex1
        · exact hexr q hq

theorem ttm_sound (fs : String → Option (List Nat)) (merge : String → String → String)
    (decodeStep : String → String → List Nat → List Nat × String)
    (extOf : String → String) (jp : String → String → String) (d : String)
    (allMats : List GameMat)
    (hsame : ∀ g1 ∈ allMats, ∀ g2 ∈ allMats,
      g1.materialId = g2.materialId → g1.files = g2.files) :
    ∀ (pairs : List (GltfMat × GameMat)) (s s2 : TexState) (out : List GltfMat),
      (∀ pr ∈ pairs, Prod.snd pr ∈ allMats) →
      texturesTransformModel fs merge decodeStep extOf jp (some d) pairs s
        = Except.ok (s2, out) →
      CacheSound fs s →
      (∀ id b, (id, b) ∈ s.bundles → ∀ gm ∈ allMats, gm.materialId = id →
        ∀ e ∈ gm.files, ∃ bb, fs (jp d e.2) = some bb) →
      ∀ pr ∈ pairs, ∀ e ∈ (Prod.snd pr).files, ∃ b, fs (jp d e.2) = some b := by
  intro pairs
  induction pairs with
  | nil =>
    intro s s2 out _ _ _ _ pr hpr
    simp at hpr
  | cons hd rest ih =>
    intro s s2 out hall h hc hbinv
    rcases hd with ⟨m, gm⟩
    rw [texturesTransformModel] at h
    split at h
    · exact Except.noConfusion h
    next s' bundle hg =>
      split at h
      · exact Except.noConfusion h
      next s'' out2 hr =>
        have hgm : gm ∈ allMats := hall (m, gm) (List.mem_cons_self _ _)
        -- analyse the bundle resolution
        unfold getGameTextures at hg
        split at hg
        · -- bundle cache hit
          rename_i b0 hb
          have hg' := hg
          injection hg' with hg''
          have hst : s = s' := congrArg Prod.fst hg''
          subst hst
          have hbund : (gm.materialId, b0) ∈ s.bundles := lookup_mem hb
          intro pr hpr e he
          rcases List.mem_cons.mp hpr with hpr | hpr
          · subst hpr
            exact hbinv gm.materialId b0 hbund gm hgm rfl e he
          · exact ih s s'' out2 (fun q hq => hall q (List.mem_cons_of_mem _ hq))
              hr hc hbinv pr hpr e he
        · -- bundle cache miss: all slots are loaded
          rename_i hb
          dsimp only at hg
          split at hg
          · exact Except.noConfusion hg
          rename_i s1 bundle1 hl
          have hg' := hg
          injection hg' with hg''
          have hst : _ = s' := congrArg Prod.fst hg''
          obtain ⟨hex, hc1, hb1⟩ := loadSlots_sound gm.files s s1 bundle1 hl hc
          have hc' : CacheSound fs s' := by
            rw [← hst]
            intro p ptid hp
            exact hc1 p ptid hp
          have hbinv' : ∀ id b, (id, b) ∈ s'.bundles → ∀ gm2 ∈ allMats,
              gm2.materialId = id → ∀ e ∈ gm2.files, ∃ bb, fs (jp d e.2) = some bb := by
            rw [← hst]
            intro id b hmem gm2 hgm2 hid e he
            have hmem' : (id, b) ∈ s1.bundles ++ [(gm.materialId, bundle1)] := hmem
            rcases List.mem_append.mp hmem' with hmem2 | hmem2
            · rw [hb1] at hmem2
              exact hbinv id b hmem2 gm2 hgm2 hid e he
            · rw [List.mem_singleton] at hmem2
              have hpair := Prod.mk.inj hmem2
              have hideq : gm2.materialId = gm.materialId := by
                rw [hid, hpair.1]
              have hfeq : gm2.files = gm.files := hsame gm2 hgm2 gm hgm hideq
              rw [hfeq] at he
              exact hex e he
          intro pr hpr e he
          rcases List.mem_cons.mp hpr with hpr | hpr
          · subst hpr
            exact hex e he
          · exact ih s' s'' out2 (fun q hq => hall q (List.mem_cons_of_mem _ hq))
              hr hc' hbinv' pr hpr e he

end Tex

namespace Tex

/--
Claim C8: a required texture file that does not exist on disk makes the
textures transform raise an error; the error propagates out of the
sequential transform queue, no later queued transform runs (the whole
queue evaluates to the same error whatever commands follow), and the
conversion's output is never written.  The initial state has the empty
caches of a fresh conversion run, and game materials sharing a material
id carry the same file table (they come from one materialId-keyed
lookup table).
-/
theorem C8_missing_texture_fatal (fs : String → Option (List Nat))
    (merge : String → String → String)
    (decodeStep : String → String → List Nat → List Nat × String)
    (extOf : String → String) (jp : String → String → String)
    (dataDir : Option String) (pairs : List (GltfMat × GameMat)) (s0 : TexState)
    (hcache : s0.fileCache = []) (hbundles : s0.bundles = [])
    (hsame : ∀ pr1 ∈ pairs, ∀ pr2 ∈ pairs,
      (Prod.snd pr1).materialId = (Prod.snd pr2).materialId →
      (Prod.snd pr1).files = (Prod.snd pr2).files)
    (hmiss : ∃ pr ∈ pairs, ∃ e ∈ (Prod.snd pr).files,
      ∀ d, dataDir = some d → fs (jp d e.2) = none) :
    ∃ err,
      texturesTransformModel fs merge decodeStep extOf jp dataDir pairs s0
        = Except.error err ∧
      ∀ (post : List ((TexState × List GltfMat) → Except String (TexState × List GltfMat)))
        (mats0 : List GltfMat) (write : (TexState × List GltfMat) → List Nat),
        Pipe.processQueue
          ((fun st => (texturesTransformModel fs merge decodeStep extOf jp dataDir pairs
            st.1)) :: post) (s0, mats0) = Except.error err ∧
        Pipe.saveToFile write
          ((fun st => (texturesTransformModel fs merge decodeStep extOf jp dataDir pairs
            st.1)) :: post) (s0, mats0) = Except.error err := by
  rcases hres : texturesTransformModel fs merge decodeStep extOf jp dataDir pairs s0
    with err | ⟨s2, out⟩
  · refine ⟨err, rfl, ?_⟩
    intro post mats0 write
    constructor
    · rw [Pipe.processQueue, hres]
    · rw [Pipe.saveToFile, Pipe.processQueue, hres]
  · exfalso
    obtain ⟨pr, hpr, e, he, hnone⟩ := hmiss
    rcases dataDir with _ | d
    · -- no data directory: the first processed material already fails
      rcases pairs with _ | ⟨⟨m, gm⟩, rest⟩
      · simp at hpr
      · rw [texturesTransformModel] at hres
        rw [show getGameTextures fs merge decodeStep extOf jp none gm s0
            = Except.error "Missing game directory, textures unavailable" from by
          unfold getGameTextures
          rw [hbundles]
          rfl] at hres
        exact Except.noConfusion hres
    · have hex := ttm_sound fs merge decodeStep extOf jp d (pairs.map Prod.snd)
        (by
          intro g1 hg1 g2 hg2 hid
          rcases List.mem_map.mp hg1 with ⟨p1, hp1, rfl⟩
          rcases List.mem_map.mp hg2 with ⟨p2, hp2, rfl⟩
          exact hsame p1 hp1 p2 hp2 hid)
        pairs s0 s2 out
        (fun q hq => List.mem_map.mpr ⟨q, hq, rfl⟩) hres
        (by
          intro p tid hp
          rw [hcache] at hp
          simp at hp)
        (by
          intro id b hb
          rw [hbundles] at hb
          simp at hb)
        pr hpr e he
      rw [hnone d rfl] at hex
      rcases hex with ⟨b, hb⟩
      exact Option.noConfusion hb

/-- Concrete inputs for the C8 witness: a single material whose only
slot names a file absent from the (empty) disk. -/
def c8pairs : List (GltfMat × GameMat) :=
  [(⟨"Steel", none, none, none, none, none⟩,
    ⟨"steel", [("color", "steel_color.png")]⟩)]

/-- An empty file system: every file is missing. -/
def c8fs : String → Option (List Nat) := fun _ => none

/-- Witness for claim C8: with the file absent, the textures transform
errors and the queue and save both propagate that error. -/
theorem C8_missing_texture_fatal_witness :
    ∃ err,
      texturesTransformModel c8fs c6merge c6decode c6ext (fun a b => a ++ "/" ++ b)
        (some "Game/data") c8pairs c6s0 = Except.error err ∧
      ∀ (post : List ((TexState × List GltfMat) → Except String (TexState × List GltfMat)))
        (mats0 : List GltfMat) (write : (TexState × List GltfMat) → List Nat),
        Pipe.processQueue
          ((fun st => (texturesTransformModel c8fs c6merge c6decode c6ext
            (fun a b => a ++ "/" ++ b) (some "Game/data") c8pairs st.1)) :: post)
          (c6s0, mats0) = Except.error err ∧
        Pipe.saveToFile write
          ((fun st => (texturesTransformModel c8fs c6merge c6decode c6ext
            (fun a b => a ++ "/" ++ b) (some "Game/data") c8pairs st.1)) :: post)
          (c6s0, mats0) = Except.error err :=
  C8_missing_texture_fatal c8fs c6merge c6decode c6ext (fun a b => a ++ "/" ++ b)
    (some "Game/data") c8pairs c6s0 rfl rfl (by decide)
    ⟨(⟨"Steel", none, none, none, none, none⟩, ⟨"steel", [("color", "steel_color.png")]⟩),
      by decide, ("color", "steel_color.png"), by decide, fun d hd => rfl⟩

end Tex

namespace Doc

/-- A document node: name and optional mesh reference (index into the
document's mesh list). -/
structure GNode where
  name : String
  mesh : Option Nat
  deriving DecidableEq

/-- A document mesh: name and its primitives (by id). -/
structure GMesh where
  name : String
  prims : List Nat
  deriving DecidableEq

/-- The document as touched by the precondition section of
`ElementSeparationTransform` (part_004, lines 18-36). -/
structure GDoc where
  meshes : List GMesh
  nodes : List GNode
  materials : List String
  deriving DecidableEq

/-- The warning emitted when the document does not hold exactly one mesh
(part_004, line 21). -/
def meshCountWarning : String :=
  "You must have exactly one mesh in the file for element separation to work. Skipping..."

/-- The warning emitted when the document holds no material (part_004,
line 34). -/
def materialWarning : String :=
  "You must have at least one material for separation to work. Skipping..."

/-- Lines 27-30 of part_004: the node carrying the default mesh is
looked up, and created (`document.createNode().setMesh(defaultMesh)`,
an unnamed node appended to the root) when absent.  This happens before
the material check. -/
def ensureMeshNode (doc : GDoc) : GDoc :=
  if doc.nodes.any fun nd => nd.mesh == some 0 then doc
  else { doc with nodes := doc.nodes ++ [⟨"", some 0⟩] }

/--
The control flow of `ElementSeparationTransform` (part_004, lines
18-36): not exactly one mesh — warn and return; then resolve (possibly
create) the default mesh node; no material — warn and return; otherwise
run the body of the separation pass (lines 38-365, abstracted as `main`
and modelled componentwise in the `Sep` and `Reb` namespaces).  The
second component collects the emitted warnings.
-/
def ElementSeparationModel (main : GDoc → GDoc) (doc : GDoc) : GDoc × List String :=
  if doc.meshes.length ≠ 1 then
    (doc, [meshCountWarning])
  else
    let doc1 := ensureMeshNode doc
    if doc1.materials.length = 0 then (doc1, [materialWarning])
    else (main doc1, [])

/-- A document with one mesh, no nodes and no materials. -/
def c7Doc : GDoc := ⟨[⟨"mesh", [0]⟩], [], []⟩

/--
Claim C7 fails on the code: on a document with one mesh, zero materials
and no node referencing the mesh, the transform emits the non-fatal
material warning but does not leave the document unchanged — a new node
referencing the mesh is created before the material check runs.
-/
theorem C7_counterexample :
    (ElementSeparationModel id c7Doc).2 = [materialWarning] ∧
    (ElementSeparationModel id c7Doc).1 ≠ c7Doc ∧
    (ElementSeparationModel id c7Doc).1.nodes = [⟨"", some 0⟩] := by
  decide

/--
Claim C7 amended: with more than one mesh or no mesh, the transform
warns and leaves the document completely unchanged; with exactly one
mesh and zero materials it warns and changes nothing except possibly
creating one unnamed node referencing the single mesh when no node did
(meshes, primitives, materials and existing nodes are untouched).  In
both cases the transform returns normally, so the queued pipeline
continues with the next transform.
-/
theorem C7_precondition_noop (main : GDoc → GDoc) (doc : GDoc) :
    (doc.meshes.length ≠ 1 →
      ElementSeparationModel main doc = (doc, [meshCountWarning])) ∧
    (doc.meshes.length = 1 → doc.materials.length = 0 →
      ElementSeparationModel main doc = (ensureMeshNode doc, [materialWarning]) ∧
      (ensureMeshNode doc).meshes = doc.meshes ∧
      (ensureMeshNode doc).materials = doc.materials ∧
      ((∃ nd ∈ doc.nodes, nd.mesh = some 0) → ensureMeshNode doc = doc) ∧
      ((¬∃ nd ∈ doc.nodes, nd.mesh = some 0) →
        (ensureMeshNode doc).nodes = doc.nodes ++ [⟨"", some 0⟩])) ∧
    (∀ (rest : List (GDoc → Except String GDoc)),
      Pipe.processQueue
        ((fun dd => Except.ok (ElementSeparationModel main dd).1) :: rest) doc
        = Pipe.processQueue rest (ElementSeparationModel main doc).1) := by
  refine ⟨?_, ?_, ?_⟩
  · intro h
    unfold ElementSeparationModel
    rw [if_pos h]
  · intro h1 h0
    have hmat : (ensureMeshNode doc).materials = doc.materials := by
      unfold ensureMeshNode
      by_cases hnd : doc.nodes.any fun nd => nd.mesh == some 0
      · rw [if_pos hnd]
      · rw [if_neg hnd]
    refine ⟨?_, ?_, hmat, ?_, ?_⟩
    · unfold ElementSeparationModel
      rw [if_neg (by omega)]
      have h0' : (ensureMeshNode doc).materials.length = 0 := by
        rw [hmat, h0]
      simp [h0']
    · unfold ensureMeshNode
      by_cases hnd : doc.nodes.any fun nd => nd.mesh == some 0
      · rw [if_pos hnd]
      · rw [if_neg hnd]
    · intro hex
      unfold ensureMeshNode
      rw [if_pos]
      rcases hex with ⟨nd, hmem, hm⟩
      exact List.any_eq_true.mpr ⟨nd, hmem, by simp [hm]⟩
    · intro hnex
      unfold ensureMeshNode
      rw [if_neg]
      intro hany
      rcases List.any_eq_true.mp hany with ⟨nd, hmem, hm⟩
      exact hnex ⟨nd, hmem, by simpa using hm⟩
  · intro rest
    rfl

/-- A document with two meshes, to exercise the first precondition. -/
def c7TwoMeshDoc : GDoc := ⟨[⟨"a", []⟩, ⟨"b", []⟩], [⟨"n", some 0⟩], ["mat"]⟩

/-- Witness for the amended claim C7 at concrete documents: a two-mesh
document is returned untouched with the mesh-count warning, and the
zero-material document only gains the mesh node. -/
theorem C7_precondition_noop_witness :
    ElementSeparationModel id c7TwoMeshDoc = (c7TwoMeshDoc, [meshCountWarning]) ∧
    ElementSeparationModel id c7Doc = (ensureMeshNode c7Doc, [materialWarning]) :=
  ⟨(C7_precondition_noop id c7TwoMeshDoc).1 (by decide),
    ((C7_precondition_noop id c7Doc).2.1 (by decide) (by decide)).1⟩

end Doc

namespace Reb

/-- Position entries (each a VEC3 accessor element). -/
abbrev V3 := ℚ × ℚ × ℚ

/-- Texture coordinate entries (each a VEC2 accessor element). -/
abbrev V2 := ℚ × ℚ

/-- The source primitive being rebuilt (part_004): its index buffer and
its POSITION and TEXCOORD_0 attributes. -/
structure SrcPrim where
  indices : List Nat
  pos : List V3
  uv : List V2

/-- The read `primitiveVertexPositions.getElement(primitiveIndices.getScalar(j))`
(part_004, lines 223-232): the position of the vertex referenced by
index-buffer slot `j` (out-of-range reads modelled by zero defaults). -/
def SrcPrim.posAt (p : SrcPrim) (j : Nat) : V3 :=
  p.pos.getD (p.indices.getD j 0) (0, 0, 0)

/-- The read `primitiveVertexUV.getElement(primitiveIndices.getScalar(j))`
(part_004, lines 233-237). -/
def SrcPrim.uvAt (p : SrcPrim) (j : Nat) : V2 :=
  p.uv.getD (p.indices.getD j 0) (0, 0)

/-- The three position entries copied for triangle `t`. -/
def posTriple (src : SrcPrim) (t : Nat) : List V3 :=
  [src.posAt (3 * t), src.posAt (3 * t + 1), src.posAt (3 * t + 2)]

/-- The three UV entries copied for triangle `t`. -/
def uvTriple (src : SrcPrim) (t : Nat) : List V2 :=
  [src.uvAt (3 * t), src.uvAt (3 * t + 1), src.uvAt (3 * t + 2)]

/-- The three accessor arrays of a rebuilt primitive: indices, positions
and UVs. -/
structure Arrs where
  idx : List Nat
  pos : List V3
  uv : List V2

/-- Consecutive `setElement`/`setScalar` writes starting at position
`j`. -/
def setRun {α : Type} : List α → Nat → List α → List α
  | l, _, [] => l
  | l, j, v :: vs => setRun (l.set j v) (j + 1) vs

/--
The writes performed for the triangle stored in slot `idx` (part_004,
lines 220-248 for the merged primitive, 304-330 per isolated island):
for `i = 0, 1, 2` the original indexed vertex's position and UV are
copied to output vertex `3*idx + i`, and the index buffer receives the
output vertex number itself — stored through a `Uint16Array`, hence
reduced modulo 65536.
-/
def fillTriangle (src : SrcPrim) (idx t : Nat) (a : Arrs) : Arrs :=
  let j := 3 * idx
  { idx := setRun a.idx j [j % 65536, (j + 1) % 65536, (j + 2) % 65536],
    pos := setRun a.pos j (posTriple src t),
    uv := setRun a.uv j (uvTriple src t) }

/-- The per-island triangle loop
(`[...triangleIds].forEach((triangleId, localIdx) => ...)`): triangle
number `idx` counts from the island's base slot. -/
def fillIsland (src : SrcPrim) : List Nat → Nat → Arrs → Arrs
  | [], _, a => a
  | t :: rest, idx, a => fillIsland src rest (idx + 1) (fillTriangle src idx t a)

/-- The merged-primitive island loop (part_004, lines 216-254):
`baseIdx` advances by each island's size. -/
def fillIslands (src : SrcPrim) : List (List Nat) → Nat → Arrs → Arrs
  | [], _, a => a
  | isl :: rest, base, a => fillIslands src rest (base + isl.length) (fillIsland src isl base a)

/-- The freshly allocated zero-filled accessor arrays for `N` triangles
(part_004, lines 200-213): `new Uint16Array(3N)`,
`new Float32Array(9N)` viewed as VEC3, `new Float32Array(6N)` viewed as
VEC2. -/
def zeroArrs (N : Nat) : Arrs :=
  ⟨List.replicate (3 * N) 0, List.replicate (3 * N) (0, 0, 0), List.replicate (3 * N) (0, 0)⟩

/-- The merged structural primitive rebuilt from all voxel islands
(part_004, lines 196-267). -/
def buildMergedPrim (src : SrcPrim) (islands : List (List Nat)) : Arrs :=
  fillIslands src islands 0 (zeroArrs ((islands.map List.length).sum))

/-- One isolated-island primitive (part_004, lines 285-345). -/
def buildIslandPrim (src : SrcPrim) (isl : List Nat) : Arrs :=
  fillIsland src isl 0 (zeroArrs isl.length)

end Reb

namespace Reb

theorem length_setRun {α : Type} :
    ∀ (vals l : List α) (j : Nat), (setRun l j vals).length = l.length := by
  intro vals
  induction vals with
  | nil => intro l j; rfl
  | cons v vs ih =>
    intro l j
    rw [setRun, ih, List.length_set]

theorem setRun_eq {α : Type} :
    ∀ (vals l : List α) (j : Nat), j + vals.length ≤ l.length →
      setRun l j vals = l.take j ++ vals ++ l.drop (j + vals.length) := by
  intro vals
  induction vals with
  | nil =>
    intro l j _
    simp [setRun, List.take_append_drop]
  | cons v vs ih =>
    intro l j hlen
    have hj : j < l.length := by
      simp only [List.length_cons] at hlen
      omega
    have hset : l.set j v = (l.take j ++ [v]) ++ l.drop (j + 1) := by
      rw [List.set_eq_take_append_cons_drop, if_pos hj]
      simp
    have hlen2 : (j + 1) + vs.length ≤ (l.set j v).length := by
      simp only [List.length_set]
      simp only [List.length_cons] at hlen
      omega
    rw [setRun, ih (l.set j v) (j + 1) hlen2, hset]
    have hplen : (l.take j ++ [v]).length = j + 1 := by
      simp [List.length_take, Nat.min_eq_left (Nat.le_of_lt hj)]
    have hpre : ((l.take j ++ [v]) ++ l.drop (j + 1)).take (j + 1) = l.take j ++ [v] :=
      List.take_left' hplen
    have hsuf : ((l.take j ++ [v]) ++ l.drop (j + 1)).drop ((j + 1) + vs.length)
        = l.drop (j + (vs.length + 1)) := by
      have h1 : (j + 1) + vs.length = (l.take j ++ [v]).length + vs.length := by
        rw [hplen]
      rw [h1, List.drop_append, List.drop_drop]
      congr 1
      omega
    rw [hpre, hsuf]
    simp [List.append_assoc]

end Reb

namespace Reb

theorem decomp_compose {α : Type} {l l1 l2 : List α} {j k1 k2 : Nat} {v1 v2 : List α}
    (h1 : l1 = l.take j ++ v1 ++ l.drop (j + k1)) (hv1 : v1.length = k1)
    (hj : j + k1 ≤ l.length)
    (h2 : l2 = l1.take (j + k1) ++ v2 ++ l1.drop ((j + k1) + k2)) :
    l2 = l.take j ++ (v1 ++ v2) ++ l.drop (j + (k1 + k2)) := by
  have hjl : j ≤ l.length := by omega
  have hplen : (l.take j ++ v1).length = j + k1 := by
    simp [List.length_take, Nat.min_eq_left hjl, hv1]
  have hpre : l1.take (j + k1) = l.take j ++ v1 := by
    rw [h1, List.append_assoc, ← List.append_assoc]
    exact List.take_left' hplen
  have hsuf : l1.drop ((j + k1) + k2) = l.drop (j + (k1 + k2)) := by
    rw [h1, List.append_assoc, ← List.append_assoc]
    have he : (j + k1) + k2 = (l.take j ++ v1).length + k2 := by rw [hplen]
    rw [he, List.drop_append, List.drop_drop]
    congr 1
    omega
  rw [h2, hpre, hsuf]
  simp [List.append_assoc]

theorem fillTriangle_lengths (src : SrcPrim) (idx t : Nat) (a : Arrs) :
    (fillTriangle src idx t a).idx.length = a.idx.length ∧
    (fillTriangle src idx t a).pos.length = a.pos.length ∧
    (fillTriangle src idx t a).uv.length = a.uv.length := by
  unfold fillTriangle
  exact ⟨length_setRun _ _ _, length_setRun _ _ _, length_setRun _ _ _⟩

theorem fillIsland_lengths (src : SrcPrim) :
    ∀ (isl : List Nat) (idx : Nat) (a : Arrs),
      (fillIsland src isl idx a).idx.length = a.idx.length ∧
      (fillIsland src isl idx a).pos.length = a.pos.length ∧
      (fillIsland src isl idx a).uv.length = a.uv.length := by
  intro isl
  induction isl with
  | nil => intro idx a; exact ⟨rfl, rfl, rfl⟩
  | cons t rest ih =>
    intro idx a
    obtain ⟨hA, hB, hC⟩ := ih (idx + 1) (fillTriangle src idx t a)
    obtain ⟨hA2, hB2, hC2⟩ := fillTriangle_lengths src idx t a
    exact ⟨by rw [fillIsland, hA, hA2], by rw [fillIsland, hB, hB2],
      by rw [fillIsland, hC, hC2]⟩

theorem fillIslands_lengths (src : SrcPrim) :
    ∀ (islands : List (List Nat)) (base : Nat) (a : Arrs),
      (fillIslands src islands base a).idx.length = a.idx.length ∧
      (fillIslands src islands base a).pos.length = a.pos.length ∧
      (fillIslands src islands base a).uv.length = a.uv.length := by
  intro islands
  induction islands with
  | nil => intro base a; exact ⟨rfl, rfl, rfl⟩
  | cons isl rest ih =>
    intro base a
    obtain ⟨hA, hB, hC⟩ := ih (base + isl.length) (fillIsland src isl base a)
    obtain ⟨hA2, hB2, hC2⟩ := fillIsland_lengths src isl base a
    exact ⟨by rw [fillIslands, hA, hA2], by rw [fillIslands, hB, hB2],
      by rw [fillIslands, hC, hC2]⟩

theorem range'_three (j : Nat) : List.range' j 3 = [j, j + 1, j + 2] := by
  rfl

theorem map_mod_range'_split (s k1 k2 : Nat) :
    (List.range' s (k1 + k2)).map (fun i => i % 65536)
      = (List.range' s k1).map (fun i => i % 65536)
        ++ (List.range' (s + k1) k2).map (fun i => i % 65536) := by
  rw [← List.map_append]
  congr 1
  have h := List.range'_append s k1 k2 1
  rw [Nat.one_mul] at h
  rw [h, Nat.add_comm k1 k2]

theorem fillIsland_spec (src : SrcPrim) :
    ∀ (isl : List Nat) (idx : Nat) (a : Arrs),
      3 * (idx + isl.length) ≤ a.idx.length →
      3 * (idx + isl.length) ≤ a.pos.length →
      3 * (idx + isl.length) ≤ a.uv.length →
      (fillIsland src isl idx a).idx = a.idx.take (3 * idx)
        ++ (List.range' (3 * idx) (3 * isl.length)).map (fun i => i % 65536)
        ++ a.idx.drop (3 * idx + 3 * isl.length) ∧
      (fillIsland src isl idx a).pos = a.pos.take (3 * idx)
        ++ isl.flatMap (posTriple src) ++ a.pos.drop (3 * idx + 3 * isl.length) ∧
      (fillIsland src isl idx a).uv = a.uv.take (3 * idx)
        ++ isl.flatMap (uvTriple src) ++ a.uv.drop (3 * idx + 3 * isl.length) := by
  intro isl
  induction isl with
  | nil =>
    intro idx a _ _ _
    refine ⟨?_, ?_, ?_⟩ <;> simp [fillIsland, List.take_append_drop]
  | cons t rest ih =>
    intro idx a hidx hpos huv
    simp only [List.length_cons] at hidx hpos huv
    have h3 : 3 * idx + 3 ≤ a.idx.length := by omega
    have h3p : 3 * idx + 3 ≤ a.pos.length := by omega
    have h3u : 3 * idx + 3 ≤ a.uv.length := by omega
    have hTidx : (fillTriangle src idx t a).idx = a.idx.take (3 * idx)
        ++ [3 * idx % 65536, (3 * idx + 1) % 65536, (3 * idx + 2) % 65536]
        ++ a.idx.drop (3 * idx + 3) := by
      unfold fillTriangle
      exact setRun_eq _ _ _ (by simpa using h3)
    have hTpos : (fillTriangle src idx t a).pos = a.pos.take (3 * idx)
        ++ posTriple src t ++ a.pos.drop (3 * idx + 3) := by
      unfold fillTriangle
      exact setRun_eq _ _ _ (by simpa [posTriple] using h3p)
    have hTuv : (fillTriangle src idx t a).uv = a.uv.take (3 * idx)
        ++ uvTriple src t ++ a.uv.drop (3 * idx + 3) := by
      unfold fillTriangle
      exact setRun_eq _ _ _ (by simpa [uvTriple] using h3u)
    obtain ⟨hTl1, hTl2, hTl3⟩ := fillTriangle_lengths src idx t a
    have hrec := ih (idx + 1) (fillTriangle src idx t a)
      (by rw [hTl1]; omega) (by rw [hTl2]; omega) (by rw [hTl3]; omega)
    obtain ⟨hr1, hr2, hr3⟩ := hrec
    have harith : 3 * (idx + 1) = 3 * idx + 3 := by ring
    rw [harith] at hr1 hr2 hr3
    have hstep : fillIsland src (t :: rest) idx a
        = fillIsland src rest (idx + 1) (fillTriangle src idx t a) := rfl
    refine ⟨?_, ?_, ?_⟩
    · have hcomp := decomp_compose hTidx (by simp) h3 hr1
      rw [hstep, hcomp]
      have hlc : (t :: rest).length = rest.length + 1 := rfl
      rw [hlc, show 3 * (rest.length + 1) = 3 + 3 * rest.length from by ring,
        map_mod_range'_split (3 * idx) 3 (3 * rest.length), range'_three]
      simp
    · have hcomp := decomp_compose hTpos (by simp [posTriple]) h3p hr2
      rw [hstep, hcomp]
      have hlc : (t :: rest).length = rest.length + 1 := rfl
      rw [hlc, show 3 * (rest.length + 1) = 3 + 3 * rest.length from by ring]
      simp [List.flatMap_cons, posTriple]
    · have hcomp := decomp_compose hTuv (by simp [uvTriple]) h3u hr3
      rw [hstep, hcomp]
      have hlc : (t :: rest).length = rest.length + 1 := rfl
      rw [hlc, show 3 * (rest.length + 1) = 3 + 3 * rest.length from by ring]
      simp [List.flatMap_cons, uvTriple]

end Reb

namespace Reb

theorem sum_map_three {α : Type} (l : List α) : (l.map (fun _ => 3)).sum = 3 * l.length := by
  induction l with
  | nil => simp
  | cons a l ih =>
    simp only [List.map_cons, List.sum_cons, List.length_cons, ih]
    ring

theorem length_flatMap_posTriple (src : SrcPrim) (l : List Nat) :
    (l.flatMap (posTriple src)).length = 3 * l.length := by
  induction l with
  | nil => simp
  | cons t l ih =>
    simp only [List.flatMap_cons, List.length_append, List.length_cons, ih, posTriple]
    simp
    ring

theorem length_flatMap_uvTriple (src : SrcPrim) (l : List Nat) :
    (l.flatMap (uvTriple src)).length = 3 * l.length := by
  induction l with
  | nil => simp
  | cons t l ih =>
    simp only [List.flatMap_cons, List.length_append, List.length_cons, ih, uvTriple]
    simp
    ring

theorem fillIslands_spec (src : SrcPrim) :
    ∀ (islands : List (List Nat)) (base : Nat) (a : Arrs),
      3 * (base + (islands.map List.length).sum) ≤ a.idx.length →
      3 * (base + (islands.map List.length).sum) ≤ a.pos.length →
      3 * (base + (islands.map List.length).sum) ≤ a.uv.length →
      (fillIslands src islands base a).idx = a.idx.take (3 * base)
        ++ (List.range' (3 * base) (3 * (islands.map List.length).sum)).map
            (fun i => i % 65536)
        ++ a.idx.drop (3 * base + 3 * (islands.map List.length).sum) ∧
      (fillIslands src islands base a).pos = a.pos.take (3 * base)
        ++ islands.flatten.flatMap (posTriple src)
        ++ a.pos.drop (3 * base + 3 * (islands.map List.length).sum) ∧
      (fillIslands src islands base a).uv = a.uv.take (3 * base)
        ++ islands.flatten.flatMap (uvTriple src)
        ++ a.uv.drop (3 * base + 3 * (islands.map List.length).sum) := by
  intro islands
  induction islands with
  | nil =>
    intro base a _ _ _
    refine ⟨?_, ?_, ?_⟩ <;> simp [fillIslands, List.take_append_drop]
  | cons isl rest ih =>
    intro base a hidx hpos huv
    simp only [List.map_cons, List.sum_cons] at hidx hpos huv
    have hI := fillIsland_spec src isl base a (by omega) (by omega) (by omega)
    obtain ⟨hI1, hI2, hI3⟩ := hI
    obtain ⟨hL1, hL2, hL3⟩ := fillIsland_lengths src isl base a
    have hrec := ih (base + isl.length) (fillIsland src isl base a)
      (by rw [hL1]; omega) (by rw [hL2]; omega) (by rw [hL3]; omega)
    obtain ⟨hr1, hr2, hr3⟩ := hrec
    have harith : 3 * (base + isl.length) = 3 * base + 3 * isl.length := by ring
    rw [harith] at hr1 hr2 hr3
    have hstep : fillIslands src (isl :: rest) base a
        = fillIslands src rest (base + isl.length) (fillIsland src isl base a) := rfl
    refine ⟨?_, ?_, ?_⟩
    · have hcomp := decomp_compose hI1 (by simp) (by omega) hr1
      rw [hstep, hcomp]
      simp only [List.map_cons, List.sum_cons]
      rw [show 3 * (isl.length + (rest.map List.length).sum)
          = 3 * isl.length + 3 * (rest.map List.length).sum from by ring,
        map_mod_range'_split (3 * base) (3 * isl.length) (3 * (rest.map List.length).sum)]
    · have hcomp := decomp_compose hI2 (length_flatMap_posTriple src isl) (by omega) hr2
      rw [hstep, hcomp]
      simp only [List.map_cons, List.sum_cons, List.flatten_cons, List.flatMap_append]
      rw [show 3 * (isl.length + (rest.map List.length).sum)
          = 3 * isl.length + 3 * (rest.map List.length).sum from by ring]
    · have hcomp := decomp_compose hI3 (length_flatMap_uvTriple src isl) (by omega) hr3
      rw [hstep, hcomp]
      simp only [List.map_cons, List.sum_cons, List.flatten_cons, List.flatMap_append]
      rw [show 3 * (isl.length + (rest.map List.length).sum)
          = 3 * isl.length + 3 * (rest.map List.length).sum from by ring]

end Reb

namespace Reb

/--
Claim C10 amended: every rebuilt primitive's index buffer holds the
values `0, 1, ..., 3n-1` each reduced modulo 65536 (the `Uint16Array`
word size) — hence exactly the identity sequence whenever `3n ≤ 65536`
— and its position and UV arrays hold exactly `3n` entries, the copies
of the original indexed vertices of the islands' triangles in order,
duplicated per triangle rather than shared; `n` is the rebuilt
primitive's triangle count (the summed island sizes for the merged
structural primitive, the island size for each isolated island).
-/
theorem C10_rebuild_buffers (src : SrcPrim) (islands : List (List Nat)) (isl : List Nat) :
    (buildMergedPrim src islands).idx
      = (List.range (3 * (islands.map List.length).sum)).map (fun i => i % 65536) ∧
    (buildMergedPrim src islands).pos = islands.flatten.flatMap (posTriple src) ∧
    (buildMergedPrim src islands).uv = islands.flatten.flatMap (uvTriple src) ∧
    (buildMergedPrim src islands).pos.length = 3 * (islands.map List.length).sum ∧
    (buildMergedPrim src islands).uv.length = 3 * (islands.map List.length).sum ∧
    (buildIslandPrim src isl).idx
      = (List.range (3 * isl.length)).map (fun i => i % 65536) ∧
    (buildIslandPrim src isl).pos = isl.flatMap (posTriple src) ∧
    (buildIslandPrim src isl).uv = isl.flatMap (uvTriple src) ∧
    (buildIslandPrim src isl).pos.length = 3 * isl.length ∧
    (buildIslandPrim src isl).uv.length = 3 * isl.length := by
  obtain ⟨hM1, hM2, hM3⟩ := fillIslands_spec src islands 0
    (zeroArrs ((islands.map List.length).sum)) (by simp [zeroArrs]) (by simp [zeroArrs])
    (by simp [zeroArrs])
  obtain ⟨hI1, hI2, hI3⟩ := fillIsland_spec src isl 0 (zeroArrs isl.length)
    (by simp [zeroArrs]) (by simp [zeroArrs]) (by simp [zeroArrs])
  obtain ⟨hML1, hML2, hML3⟩ := fillIslands_lengths src islands 0
    (zeroArrs ((islands.map List.length).sum))
  obtain ⟨hIL1, hIL2, hIL3⟩ := fillIsland_lengths src isl 0 (zeroArrs isl.length)
  have hz : ∀ N : Nat, (zeroArrs N).idx.take (3 * 0) = [] := by intro N; simp
  refine ⟨?_, ?_, ?_, ?_, ?_, ?_, ?_, ?_, ?_, ?_⟩
  · rw [buildMergedPrim, hM1]
    simp [zeroArrs, List.range_eq_range']
  · rw [buildMergedPrim, hM2]
    simp [zeroArrs]
  · rw [buildMergedPrim, hM3]
    simp [zeroArrs]
  · rw [buildMergedPrim, hML2]
    simp [zeroArrs]
  · rw [buildMergedPrim, hML3]
    simp [zeroArrs]
  · rw [buildIslandPrim, hI1]
    simp [zeroArrs, List.range_eq_range']
  · rw [buildIslandPrim, hI2]
    simp [zeroArrs]
  · rw [buildIslandPrim, hI3]
    simp [zeroArrs]
  · rw [buildIslandPrim, hIL2]
    simp [zeroArrs]
  · rw [buildIslandPrim, hIL3]
    simp [zeroArrs]

/-- Source primitive large enough to overflow 16-bit output indices:
65538 index-buffer entries and vertex entries. -/
def c10Src : SrcPrim :=
  ⟨List.range 65538, List.replicate 65538 (0, 0, 0), List.replicate 65538 (0, 0)⟩

/--
Claim C10 fails on the code as stated: rebuilding an island of 21846
triangles (3n = 65538 output vertices) does not produce the identity
index sequence `0..65537` — the indices are stored in a `Uint16Array`
and wrap around at 65536, so slot 65536 stores 0.
-/
theorem C10_identity_counterexample :
    (buildIslandPrim c10Src (List.range 21846)).idx ≠ List.range (3 * 21846) := by
  intro h
  obtain ⟨hI1, -, -⟩ := fillIsland_spec c10Src (List.range 21846) 0
    (zeroArrs (List.range 21846).length)
    (by simp only [zeroArrs, List.length_replicate, List.length_range]; omega)
    (by simp only [zeroArrs, List.length_replicate, List.length_range]; omega)
    (by simp only [zeroArrs, List.length_replicate, List.length_range]; omega)
  have hdrop : (List.drop (3 * 0 + 3 * (List.range 21846).length)
      (List.replicate (3 * (List.range 21846).length) (0 : Nat))) = [] := by
    refine List.drop_eq_nil_of_le ?_
    rw [List.length_replicate]
    omega
  have hidx : (buildIslandPrim c10Src (List.range 21846)).idx
      = (List.range 65538).map (fun i => i % 65536) := by
    rw [buildIslandPrim, hI1]
    have hza : ∀ k : Nat, (zeroArrs k).idx = List.replicate (3 * k) (0 : Nat) := fun k => rfl
    rw [hza, hdrop]
    simp only [Nat.mul_zero, List.take_zero, List.nil_append, List.append_nil,
      List.length_range]
    rw [show (3 : Nat) * 21846 = 65538 from by norm_num, ← List.range_eq_range']
  rw [hidx] at h
  have h2 := congrArg (fun l => l[65536]?) h
  simp only [List.getElem?_map, List.getElem?_range, show (3 : Nat) * 21846 = 65538 from by
    norm_num] at h2
  norm_num at h2

end Reb
